import Mathlib

/-!
Verification of the Modelize.js schema/validation/serialization engine.

This development is a shallow embedding of the library sources:
  - src/lib/model.js        (class Model: init, _buildRawItem, _buildValidator,
                             _beforeSaveItem, _validQuietly, fetch, collection ops)
  - src/lib/datatypes.js    (the DataTypes registry of field type contracts)
  - src/lib/utils/validation.js and src/lib/utils/formatting.js

JavaScript runtime values are modeled by the inductive type Val below.
JS numbers are modeled as rationals (finite doubles are rationals; NaN shows
up only through parse functions, modeled by Option results / null returns).
A JS Date is an instant; it is modeled by its calendar components with the
environment local time zone assumed to be UTC (the code reads local
components in formatDateOnly and produces UTC components in toISOString;
under a UTC environment both coincide, which is the only setting a
deterministic embedding can pick).
-/

/-- Calendar components of a valid JS Date instant (UTC environment). -/
structure JSDate where
  year : Nat
  month : Nat
  day : Nat
  hour : Nat
  minute : Nat
  second : Nat
  millis : Nat
deriving DecidableEq, Repr

/-- A JavaScript runtime value, as far as the library observes it.
ventity is a Model instance in object mode: its schema name, its own
enumerable fields, the checked flags of its $modelize validator, and its
isNew flag. vcoll is a Model instance in array mode: schema name, the list
of items and the $modelize.count total. vinvalid is an Invalid Date object
(a Date whose valueOf is NaN). -/
inductive Val where
  | vundef : Val
  | vnull : Val
  | vbool : Bool → Val
  | vnum : ℚ → Val
  | vstr : String → Val
  | vdate : JSDate → Val
  | vinvalid : Val
  | vobj : List (String × Val) → Val
  | varr : List Val → Val
  | ventity : String → List (String × Val) → List (String × Bool) → Bool → Val
  | vcoll : String → List Val → Int → Val

open Val

/-! ### src/lib/utils/validation.js -/

/-- Property lookup on the own enumerable fields of an object-like value;
JS property access evaluates to undefined when the key is absent. -/
def getProp (fields : List (String × Val)) (k : String) : Val :=
  (fields.lookup k).getD Val.vundef

/-- Wrapper for Object.prototype.hasOwnProperty: does the object-like value
own the key. Model instances own their schema fields; a Date owns nothing. -/
def hasProp : Val → String → Bool
  | .vobj fields, k => fields.any (fun p => p.1 == k)
  | .ventity _ fields _ _, k => fields.any (fun p => p.1 == k)
  | _, _ => false

/-- typeof value === 'string'. -/
def isStringV : Val → Bool
  | .vstr _ => true
  | _ => false

/-- value === true || value === false. -/
def isBooleanV : Val → Bool
  | .vbool _ => true
  | _ => false

/-- Number(value) === value && Number.isFinite(value): every modeled rational
is a finite number. -/
def isNumberV : Val → Bool
  | .vnum _ => true
  | _ => false

/-- isNumber(value) && Number.isInteger(value). -/
def isIntegerV : Val → Bool
  | .vnum q => q.den == 1
  | _ => false

/-- value instanceof Date && !Number.isNaN(value.valueOf()): an Invalid Date
fails the NaN test. -/
def isDateV : Val → Bool
  | .vdate _ => true
  | _ => false

/-- Array.isArray(value). -/
def isArrayV : Val → Bool
  | .varr _ => true
  | _ => false

/-- typeof value === 'object' && value !== null && !Array.isArray(value).
Date objects and Model instances are objects in this sense. -/
def isObjectV : Val → Bool
  | .vobj _ => true
  | .vdate _ => true
  | .vinvalid => true
  | .ventity _ _ _ _ => true
  | .vcoll _ _ _ => true
  | _ => false

/-! ### model.js _buildValidator: the per-field acceptability closure (C1) -/

/-- A field type contract from the DataTypes registry: defaultValue may be a
plain value or a factory function, as in the source. -/
inductive DefaultSpec where
  | val : Val → DefaultSpec
  | func : (Val → Val) → DefaultSpec

/-- The five operations of a DataTypes entry, plus the association metadata
carried by the association constructors (the model name stands for the
referenced Model class, resolved through a registry). -/
structure TypeContract where
  defaultValue : DefaultSpec
  isBlank : Val → Bool
  isValid : Val → Bool
  beforeSave : Val → Val
  beforeBuild : Val → Val
  association : Option String := none
  model : Option String := none

/-- A compiled schema field configuration, after Model.init has normalized
the raw definition: defaultValue is always a function, allowBlank and the
custom isValid predicate have their defaults filled in. The custom isValid
receives (value, data); data is the owning instance, modeled by its field
map (custom validators read the record fields, not validator internals). -/
structure FieldConf where
  type : TypeContract
  defaultValue : Val → Val
  allowBlank : Bool
  isValid : Val → List (String × Val) → Bool
  primaryKey : Bool
  bypassValidation : Bool

/-- The isValid closure installed per field by Model._buildValidator
(src/lib/model.js lines 216-229): acceptability of a field value. -/
def validatorIsValid (fc : FieldConf) (value : Val) (data : List (String × Val)) : Bool :=
  let isBlank := fc.type.isBlank value
  ((isBlank && fc.allowBlank) || (!isBlank && fc.type.isValid value)) &&
    fc.isValid value data

/-- C1: the per-field validator accepts (v, d) iff ((isBlank v and allowBlank)
or (not isBlank v and the type isValid v)) and the custom predicate holds on
(v, d). -/
theorem C1_validator_accepts_iff (fc : FieldConf) (v : Val) (d : List (String × Val)) :
    validatorIsValid fc v d = true ↔
      (((fc.type.isBlank v = true ∧ fc.allowBlank = true) ∨
        (fc.type.isBlank v = false ∧ fc.type.isValid v = true)) ∧
       fc.isValid v d = true) := by
  unfold validatorIsValid
  cases hb : fc.type.isBlank v <;> cases ha : fc.allowBlank <;>
    cases hv : fc.type.isValid v <;> cases hc : fc.isValid v d <;> simp

/-! ### JS truthiness and strict-equality helpers -/

/-- JS truthiness of a value (NaN, the only other falsy number, is not a
modeled rational). -/
def truthy : Val → Bool
  | .vundef => false
  | .vnull => false
  | .vbool b => b
  | .vnum q => q != 0
  | .vstr s => s != ""
  | _ => true

/-- value === null. -/
def seqNull : Val → Bool
  | .vnull => true
  | _ => false

/-- value === the empty string. -/
def seqEmptyString : Val → Bool
  | .vstr s => s == ""
  | _ => false

/-- value.length === 0: only arrays and strings expose a numeric length. -/
def jsLengthIsZero : Val → Bool
  | .varr l => l.isEmpty
  | .vstr s => s == ""
  | _ => false

/-- Property access value.k for the blankness checks of ADDRESS: objects and
Model instances look up their fields, any other receiver gives undefined
(access on null or undefined would throw in JS; the library only reaches
this after an isObject-style guard or on schema defaults). -/
def getPropV : Val → String → Val
  | .vobj fields, k => getProp fields k
  | .ventity _ fields _ _, k => getProp fields k
  | _, _ => Val.vundef

/-! ### src/lib/utils/formatting.js -/

/-- formatPhone: keep a leading plus sign and every character that parses as
an integer digit (isInteger(parseInt(n)) holds for single characters exactly
on the ASCII digits). -/
def formatPhone (s : String) : String :=
  ⟨(s.data.enum.filter (fun p => (p.1 == 0 && p.2 == '+') || p.2.isDigit)).map Prod.snd⟩

/-- generateUUID produces a fresh randomized 32-hex-character identifier on
every call; the model pins an unspecified representative value, no theorem
depends on it. -/
def generateUUIDModel : Val → Val :=
  fun _ => .vstr "00000000000040008000000000000000"

/-- The decimal digit characters 0-9 (the class Char.isDigit tests). -/
def isDigitChar (c : Char) : Bool := 48 ≤ c.toNat && c.toNat ≤ 57

/-- Digit characters of a number in base ten, as written by Nat.repr. -/
def digitVal (c : Char) : Nat := c.toNat - 48

/-- Numeric value of a run of decimal digit characters. -/
def parseDigits (cs : List Char) : Nat := cs.foldl (fun a c => a * 10 + digitVal c) 0

/-- addZero from formatting.js: template interpolation of the number, with a
leading zero below ten. -/
def addZero (n : Nat) : String :=
  if n < 10 then "0" ++ Nat.repr n else Nat.repr n

/-- formatDateOnly: the local calendar day as year-month-day (month is the
1-based display month, getMonth() + 1 in the source); local time is UTC in
this model. -/
def formatDateOnly (d : JSDate) : String :=
  Nat.repr d.year ++ "-" ++ addZero d.month ++ "-" ++ addZero d.day

/-- Zero-padding to a fixed width, as Date.prototype.toISOString prints its
components. -/
def padNum (k n : Nat) : String :=
  ⟨List.replicate (k - (Nat.repr n).length) '0' ++ (Nat.repr n).data⟩

/-- Date.prototype.toISOString under a UTC environment. -/
def toISOString (d : JSDate) : String :=
  padNum 4 d.year ++ "-" ++ padNum 2 d.month ++ "-" ++ padNum 2 d.day ++ "T" ++
    padNum 2 d.hour ++ ":" ++ padNum 2 d.minute ++ ":" ++ padNum 2 d.second ++ "." ++
    padNum 3 d.millis ++ "Z"

def isLeapYear (y : Nat) : Bool := y % 4 == 0 && (y % 100 != 0 || y % 400 == 0)

def daysInMonth (y m : Nat) : Nat :=
  if m == 2 then (if isLeapYear y then 29 else 28)
  else if [4, 6, 9, 11].contains m then 30
  else 31

def validYMD (y mo d : Nat) : Bool :=
  1 ≤ mo && mo ≤ 12 && 1 ≤ d && d ≤ daysInMonth y mo

def validTime (h mi s ms : Nat) : Bool :=
  h < 24 && mi < 60 && s < 60 && ms < 1000

/-- The ECMAScript Date Time String Format accepted by new Date(string):
a fixed-width YYYY-MM-DD calendar form (time defaults to UTC midnight), or
the full YYYY-MM-DDTHH:mm:ss.sssZ form printed by toISOString. Components
out of calendar range give an Invalid Date (none). -/
def parseIsoChars : List Char → Option JSDate
  | [y1, y2, y3, y4, '-', m1, m2, '-', d1, d2] =>
    if [y1, y2, y3, y4, m1, m2, d1, d2].all isDigitChar then
      let y := parseDigits [y1, y2, y3, y4]
      let mo := parseDigits [m1, m2]
      let d := parseDigits [d1, d2]
      if validYMD y mo d then some ⟨y, mo, d, 0, 0, 0, 0⟩ else none
    else none
  | [y1, y2, y3, y4, '-', m1, m2, '-', d1, d2, 'T',
     h1, h2, ':', i1, i2, ':', s1, s2, '.', f1, f2, f3, 'Z'] =>
    if [y1, y2, y3, y4, m1, m2, d1, d2, h1, h2, i1, i2, s1, s2, f1, f2, f3].all isDigitChar then
      let y := parseDigits [y1, y2, y3, y4]
      let mo := parseDigits [m1, m2]
      let d := parseDigits [d1, d2]
      let h := parseDigits [h1, h2]
      let mi := parseDigits [i1, i2]
      let s := parseDigits [s1, s2]
      let ms := parseDigits [f1, f2, f3]
      if validYMD y mo d && validTime h mi s ms then some ⟨y, mo, d, h, mi, s, ms⟩ else none
    else none
  | _ => none

/-- parseDate from formatting.js: new Date(dateString). Strings outside the
standard format reach implementation-defined parsing; the model treats them
as an Invalid Date. -/
def parseDate (s : String) : Val :=
  match parseIsoChars s.data with
  | some d => .vdate d
  | none => .vinvalid

/-! ### Number parsing (Number.parseInt / Number.parseFloat) -/

/-- Leading run of decimal digits, NaN (none) when there is none. -/
def parseLeadingDigits (cs : List Char) : Option Nat :=
  let ds := cs.takeWhile isDigitChar
  if ds.isEmpty then none else some (parseDigits ds)

/-- Number.parseInt on a string: optional sign then a leading digit run
(leading-whitespace trimming is not modeled; no claim feeds padded input). -/
def parseIntStr (s : String) : Option Int :=
  match s.data with
  | '-' :: rest => (parseLeadingDigits rest).map (fun n => -(n : Int))
  | '+' :: rest => (parseLeadingDigits rest).map (fun n => (n : Int))
  | cs => (parseLeadingDigits cs).map (fun n => (n : Int))

/-- Truncation toward zero, the effect of parseInt on a (non-scientific
notation) number stringified and reparsed. -/
def jsTrunc (q : ℚ) : Int := q.num / (q.den : Int)

/-- Number.parseInt applied to a runtime value: numbers are stringified and
reparsed, which truncates; other non-strings give NaN (none). -/
def jsParseInt : Val → Option ℚ
  | .vnum q => some ((jsTrunc q : Int) : ℚ)
  | .vstr s => (parseIntStr s).map (fun n => (n : ℚ))
  | _ => none

/-- Number.parseFloat on a string: optional sign, digits, optional fraction. -/
def parseFloatStr (s : String) : Option ℚ :=
  let core : List Char → Option ℚ := fun cs =>
    let ds := cs.takeWhile isDigitChar
    if ds.isEmpty then none
    else
      let rest := cs.drop ds.length
      match rest with
      | '.' :: fs =>
        let fds := fs.takeWhile isDigitChar
        some ((parseDigits ds : ℚ) + (parseDigits fds : ℚ) / ((10 : ℚ) ^ fds.length))
      | _ => some (parseDigits ds : ℚ)
  match s.data with
  | '-' :: rest => (core rest).map (fun q => -q)
  | '+' :: rest => core rest
  | cs => core cs

/-- Number.parseFloat applied to a runtime value: a finite number reparses to
itself. -/
def jsParseFloat : Val → Option ℚ
  | .vnum q => some q
  | .vstr s => parseFloatStr s
  | _ => none

/-! ### Regex-based string predicates of utils/validation.js -/

def emailLocalChar (c : Char) : Bool := c.isAlpha || c.isDigit || c == '.' || c == '_' || c == '-'

def emailDomainChar (c : Char) : Bool := c.isAlpha || c.isDigit || c == '-'

/-- isEmail: existence of a match of the unanchored pattern
localpart+ at domain+ dot alpha+, phrased as existence of an at sign with a
local character before it and a dot with a nonempty all-domain-character run
between, followed by a letter. -/
def isEmailB (s : String) : Bool :=
  let cs := s.data
  (List.range cs.length).any fun i =>
    cs.getD i ' ' == '@' && decide (0 < i) && emailLocalChar (cs.getD (i - 1) ' ') &&
      ((List.range cs.length).any fun j =>
        decide (i + 1 < j) && cs.getD j ' ' == '.' &&
          ((List.range (j - (i + 1))).all fun t => emailDomainChar (cs.getD (i + 1 + t) ' ')) &&
          decide (j + 1 < cs.length) && (cs.getD (j + 1) ' ').isAlpha)

def urlBodyChar (c : Char) : Bool :=
  c.isAlpha || c.isDigit || c == '-' || c == '_' || c == '.' || c == '?' || c == '=' || c == '&'

def urlAfterScheme : List Char → Bool
  | ':' :: '/' :: '/' :: c :: _ => urlBodyChar c
  | _ => false

/-- isUrl: the anchored pattern http, optional s, colon-slash-slash, then one
character of the body class. -/
def isUrlB (s : String) : Bool :=
  match s.data with
  | 'h' :: 't' :: 't' :: 'p' :: rest =>
    urlAfterScheme rest ||
      (match rest with
       | 's' :: rest2 => urlAfterScheme rest2
       | _ => false)
  | _ => false

/-- String.prototype.includes: the pattern occurs as a contiguous substring. -/
def strIncludes (s pat : String) : Bool :=
  (List.range (s.data.length + 1)).any fun i =>
    (s.data.drop i).take pat.data.length == pat.data

/-- isBase64: value.includes two markers. -/
def isBase64B (s : String) : Bool :=
  strIncludes s "data:" && strIncludes s ";base64"

def isFileB (s : String) : Bool := isUrlB s || isBase64B s

/-- isIp: split on dots into four blocks; the !Number.isNaN(block) guard of
the source is vacuous on strings (Number.isNaN never coerces), so each block
only needs parseInt between 0 and 255. -/
def splitOnDot : List Char → List Char → List (List Char)
  | [], acc => [acc.reverse]
  | c :: cs, acc =>
    if c = '.' then acc.reverse :: splitOnDot cs [] else splitOnDot cs (c :: acc)

def isIpB (s : String) : Bool :=
  let blocks := (splitOnDot s.data []).map (fun cs => (⟨cs⟩ : String))
  blocks.length == 4 &&
    blocks.all fun b =>
      match parseIntStr b with
      | some n => decide (0 ≤ n) && decide (n ≤ 255)
      | none => false

/-! ### src/lib/datatypes.js: the static type contracts -/

def isHexLower (c : Char) : Bool := c.isDigit || ('a' ≤ c && c ≤ 'f')

/-- value.replace with the grouped 8-4-4-4-12 lowercase-hex pattern: find the
leftmost run of 32 hex characters and rewrite it with the four canonical
dashes; leave the string unchanged when no run matches. -/
def uuidInsertDashes : List Char → List Char
  | [] => []
  | c :: cs =>
    let l := c :: cs
    if 32 ≤ l.length && (l.take 32).all isHexLower then
      l.take 8 ++ '-' :: (l.drop 8).take 4 ++ '-' :: (l.drop 12).take 4 ++
        '-' :: (l.drop 16).take 4 ++ '-' :: (l.drop 20).take 12 ++ l.drop 32
    else c :: uuidInsertDashes cs

/-- value.replace(dash-global, empty): drop every dash. -/
def removeDashes (cs : List Char) : List Char := cs.filter (fun c => c != '-')

def DataTypes.DATE : TypeContract where
  defaultValue := .val .vnull
  isBlank := seqNull
  isValid := isDateV
  beforeSave := fun v =>
    match v with
    | .vdate d => .vstr (formatDateOnly d)
    | _ => .vnull
  beforeBuild := fun v =>
    match v with
    | .vstr s => if s == "" then .vnull else parseDate s
    | .vdate d => .vdate d
    | _ => .vnull

def DataTypes.DATETIME : TypeContract where
  defaultValue := .val .vnull
  isBlank := seqNull
  isValid := isDateV
  beforeSave := fun v =>
    match v with
    | .vdate d => .vstr (toISOString d)
    | _ => .vnull
  beforeBuild := fun v =>
    match v with
    | .vstr s => if s == "" then .vnull else parseDate s
    | .vdate d => .vdate d
    | _ => .vnull

def DataTypes.STRING : TypeContract where
  defaultValue := .val (.vstr "")
  isBlank := seqEmptyString
  isValid := isStringV
  beforeSave := fun v => v
  beforeBuild := fun v => v

/-- UUID: beforeSave and beforeBuild call value.replace, so they are only
defined on strings in the source; other values are modeled unchanged. -/
def DataTypes.UUID : TypeContract where
  defaultValue := .func generateUUIDModel
  isBlank := seqEmptyString
  isValid := isStringV
  beforeSave := fun v =>
    match v with
    | .vstr s => .vstr ⟨uuidInsertDashes s.data⟩
    | _ => v
  beforeBuild := fun v =>
    match v with
    | .vstr s => .vstr ⟨removeDashes s.data⟩
    | _ => v

def DataTypes.EMAIL : TypeContract where
  defaultValue := .val (.vstr "")
  isBlank := seqEmptyString
  isValid := fun v =>
    match v with
    | .vstr s => isEmailB s
    | _ => false
  beforeSave := fun v => v
  beforeBuild := fun v => v

def DataTypes.PHONE : TypeContract where
  defaultValue := .val (.vstr "")
  isBlank := seqEmptyString
  isValid := isStringV
  beforeSave := fun v =>
    match v with
    | .vstr s => .vstr (formatPhone s)
    | _ => v
  beforeBuild := fun v => v

def DataTypes.URL : TypeContract where
  defaultValue := .val (.vstr "")
  isBlank := seqEmptyString
  isValid := fun v =>
    match v with
    | .vstr s => isUrlB s
    | _ => false
  beforeSave := fun v => v
  beforeBuild := fun v => v

def DataTypes.FILE : TypeContract where
  defaultValue := .val (.vstr "")
  isBlank := seqEmptyString
  isValid := fun v =>
    match v with
    | .vstr s => isFileB s
    | _ => false
  beforeSave := fun v => v
  beforeBuild := fun v => v

def DataTypes.IP : TypeContract where
  defaultValue := .val (.vstr "")
  isBlank := seqEmptyString
  isValid := fun v =>
    match v with
    | .vstr s => isIpB s
    | _ => false
  beforeSave := fun v => v
  beforeBuild := fun v => v

def DataTypes.BOOLEAN : TypeContract where
  defaultValue := .val .vnull
  isBlank := seqNull
  isValid := isBooleanV
  beforeSave := fun v => v
  beforeBuild := fun v => v

def DataTypes.INTEGER : TypeContract where
  defaultValue := .val .vnull
  isBlank := seqNull
  isValid := fun v =>
    match v with
    | .vnum q => q.den == 1 && decide (0 ≤ q)
    | _ => false
  beforeSave := fun v => v
  beforeBuild := fun v =>
    match jsParseInt v with
    | some q => .vnum q
    | none => .vnull

def DataTypes.FLOAT : TypeContract where
  defaultValue := .val .vnull
  isBlank := seqNull
  isValid := fun v =>
    match v with
    | .vnum q => decide (0 ≤ q)
    | _ => false
  beforeSave := fun v => v
  beforeBuild := fun v =>
    match jsParseFloat v with
    | some q => .vnum q
    | none => .vnull

def DataTypes.ADDRESS : TypeContract where
  defaultValue := .func (fun _ => .vobj
    [("street", .vstr ""), ("postcode", .vstr ""), ("city", .vstr ""),
     ("latitude", .vstr ""), ("longitude", .vstr "")])
  isBlank := fun v =>
    seqEmptyString (getPropV v "street") || seqEmptyString (getPropV v "postcode") ||
      seqEmptyString (getPropV v "city")
  isValid := fun v =>
    isObjectV v && hasProp v "street" && hasProp v "postcode" && hasProp v "city"
  beforeSave := fun v => v
  beforeBuild := fun v => v

def DataTypes.OBJECT : TypeContract where
  defaultValue := .func (fun _ => .vobj [])
  isBlank := seqNull
  isValid := isObjectV
  beforeSave := fun v => v
  beforeBuild := fun v => v

def DataTypes.ARRAY : TypeContract where
  defaultValue := .func (fun _ => .varr [])
  isBlank := jsLengthIsZero
  isValid := isArrayV
  beforeSave := fun v => v
  beforeBuild := fun v => v

/-! ### src/lib/model.js Model.init: schema compilation (C2) -/

/-- A raw schema field definition as written by the user: every property is
optional; primaryKey holds whatever value was written (the source tests
has(fieldconf, primaryKey) and then its truthiness). -/
structure RawFieldConf where
  type : Option TypeContract := none
  primaryKey : Option Val := none
  defaultValue : Option DefaultSpec := none
  allowBlank : Option Bool := none
  isValid : Option (Val → List (String × Val) → Bool) := none

/-- The Modelize.config state that Model.init consults. -/
structure ModelConfig where
  hasBaseUrl : Bool := true
  requireAuth : Bool := false
  hasAuthToken : Bool := false

/-- Per-model init options (only the requireAuth override matters here). -/
structure InitOptions where
  requireAuth : Option Bool := none

/-- The synchronous configuration errors thrown by Model.init. -/
inductive ConfigError where
  | missingBaseUrl : ConfigError
  | missingAuthToken : ConfigError
  | missingType : String → ConfigError
  | missingPrimaryKey : ConfigError
deriving DecidableEq, Repr

/-- Whether the raw field is marked primary key:
has(fieldconf, primaryKey) && fieldconf.primaryKey. -/
def rawIsPrimaryKey (raw : RawFieldConf) : Bool :=
  truthy (raw.primaryKey.getD .vundef)

/-- The per-field body of the Model.init loop (src/lib/model.js lines 46-79):
require a type, normalize defaultValue into a factory, default allowBlank
and the custom isValid, and compute bypassValidation. -/
def compileField (fieldname : String) (raw : RawFieldConf) : Except ConfigError FieldConf :=
  match raw.type with
  | none => .error (.missingType fieldname)
  | some t =>
    let dv := raw.defaultValue.getD t.defaultValue
    .ok
      { type := t
        defaultValue :=
          match dv with
          | .func f => f
          | .val v => fun _ => v
        allowBlank := raw.allowBlank.getD false
        isValid := raw.isValid.getD (fun _ _ => true)
        primaryKey := rawIsPrimaryKey raw
        bypassValidation :=
          rawIsPrimaryKey raw || ["createdAt", "updatedAt"].contains fieldname }

/-- The for-loop of Model.init: compile each field in order, aborting on
the first configuration error, while primaryKeyFieldname is overwritten by
every field marked primary key (so a later one wins). -/
def initLoop : List (String × RawFieldConf) → List (String × FieldConf) →
    Option String → Except ConfigError (List (String × FieldConf) × Option String)
  | [], acc, pk => .ok (acc, pk)
  | p :: rest, acc, pk =>
    match compileField p.1 p.2 with
    | .error e => .error e
    | .ok fc =>
      initLoop rest (acc ++ [(p.1, fc)])
        (if rawIsPrimaryKey p.2 then some p.1 else pk)

/-- Model.init (src/lib/model.js lines 15-86): config checks, then the
per-field loop, and finally the missing-primary-key check. Returns the
compiled schema together with primaryKeyFieldname. -/
def initSchema (cfg : ModelConfig) (options : InitOptions)
    (schema : List (String × RawFieldConf)) :
    Except ConfigError (List (String × FieldConf) × String) :=
  if !cfg.hasBaseUrl then .error .missingBaseUrl
  else if (options.requireAuth.getD cfg.requireAuth) && !cfg.hasAuthToken then
    .error .missingAuthToken
  else
    match initLoop schema [] none with
    | .error e => .error e
    | .ok (_, none) => .error .missingPrimaryKey
    | .ok (compiled, some pk) => .ok (compiled, pk)

/-! ### src/lib/model.js _buildRawItem (C5) -/

/-- JS a || b: a when truthy, else b. -/
def jsOr (a b : Val) : Val := if truthy a then a else b

/-- The primary-key resolution of Model._buildRawItem (line 192):
item.primaryKey || item[pkField] || pk default factory with no argument
(the factory receives undefined for its parameter). -/
def resolvePk (schema : List (String × FieldConf)) (pkName : String)
    (item : List (String × Val)) : Val :=
  jsOr (getProp item "primaryKey")
    (jsOr (getProp item pkName)
      (match schema.lookup pkName with
       | some fc => fc.defaultValue .vundef
       | none => .vundef))

/-- Model._buildRawItem (src/lib/model.js lines 189-206): resolve the
primary key, then fill every schema field: the primary-key field gets the
resolved key, a field present in the partial keeps its value, and any other
field gets its default factory applied to the resolved key. -/
def buildRawItem (schema : List (String × FieldConf)) (pkName : String)
    (item : List (String × Val)) : List (String × Val) :=
  schema.map fun p =>
    if p.1 == pkName then (p.1, resolvePk schema pkName item)
    else if item.any (fun q => q.1 == p.1) then (p.1, getProp item p.1)
    else (p.1, p.2.defaultValue (resolvePk schema pkName item))

/-! ### src/lib/model.js _buildValidator and _beforeSaveItem (C3, C4) -/

/-- Model._buildValidator (src/lib/model.js lines 209-234): the fresh
validator state of an instance, one entry per schema field, checked
initialized to bypassValidation. The isValid closure of each entry is
validatorIsValid of the field configuration. -/
def buildValidator (schema : List (String × FieldConf)) : List (String × Bool) :=
  schema.map fun p => (p.1, p.2.bypassValidation)

/-- Model._beforeSaveItem (src/lib/model.js lines 112-126): walk the
validator entries of the instance; a field is included in the wire object
iff its entry is checked and its current value is accepted by the entry
closure, and its value is serialized through the field type beforeSave.
The schema lookup mirrors this.schema[fieldname]; validator entries always
come from the schema, so the none branch is unreachable for instances the
library builds. -/
def beforeSaveItem (schema : List (String × FieldConf))
    (fields : List (String × Val)) (checked : List (String × Bool)) :
    List (String × Val) :=
  checked.filterMap fun p =>
    match schema.lookup p.1 with
    | some fc =>
      let value := getProp fields p.1
      if p.2 && validatorIsValid fc value fields then
        some (p.1, fc.type.beforeSave value)
      else none
    | none => none

/-! ### src/lib/model.js _validQuietly (C4, C7)

An element of the fieldlist is a field name (string), a pair of a field
name and an optional nested fieldlist (a two-element array in the source),
or anything else (which the source reports as a syntax error). The source
dispatches association pairs on type.association with cases BelongsTo,
HasOne and HasMany; note that datatypes.js tags its association
constructors BELONGSTO, HASONE and HASMANY, so with the shipped registry
no switch case matches and a pair entry only marks the field itself.

The source interleaves two effects in one pass: it mutates the checked
flags of validator entries, and it accumulates (isValid, errors). The
result is independent of the flags (the isValid closures only read the
value and the owner fields) and the marking is independent of the results,
so the embedding computes them as two passes, valListAux and markListM,
over the same entry structure. -/

inductive FieldItem where
  | fname : String → FieldItem
  | fpair : String → Option (List FieldItem) → FieldItem
  | fother : Val → FieldItem

inductive VErrKind where
  | NOT_VALID : VErrKind
  | NOT_FOUND : VErrKind
  | SYNTAX_ERROR : VErrKind
deriving DecidableEq, Repr

/-- One element of the errors list: context is the fieldlist of the call
that produced it, name is the offending field name (or the raw list entry
for a syntax error), value is carried for NOT_VALID only. -/
structure VErr where
  context : List FieldItem
  name : String ⊕ Val
  value : Option Val := none
  error : VErrKind

/-- A registry resolving a model name to its compiled schema, standing for
the Model classes produced by Model.init. -/
def Reg := String → List (String × FieldConf)

/-- checkValidity from _validQuietly: fold a sub-result into the
accumulated (isValid, errors) pair; errors accumulate only from failing
results. -/
def checkValidity (acc r : Bool × List VErr) : Bool × List VErr :=
  if r.1 then acc else (false, acc.2 ++ r.2)

/-- does the instance own the field: has(this, fieldname). -/
def hasField (fields : List (String × Val)) (s : String) : Bool :=
  fields.any fun p => p.1 == s

mutual

/-- The (isValid, errors) result of _validQuietly over a fieldlist; ctx is
the whole fieldlist of the call, recorded in every error it produces. -/
def valListAux (reg : Reg) (model : String) (fields : List (String × Val))
    (ctx : List FieldItem) (l : List FieldItem) : Bool × List VErr :=
  match l with
  | [] => (true, [])
  | e :: es =>
    let r := valEntry reg model fields ctx e
    let rest := valListAux reg model fields ctx es
    (r.1 && rest.1, (if r.1 then [] else r.2) ++ rest.2)
termination_by sizeOf l

/-- The contribution of a single fieldlist entry to the _validQuietly
result. A field name marks nothing here (see markEntry) and yields
NOT_VALID when unacceptable or NOT_FOUND when the instance lacks the
field; a pair recurses per the association switch; anything else is a
SYNTAX_ERROR. Where the source would throw (validator or schema entry
missing for an owned field, or recursing into a non-instance value) the
model returns a neutral (true, []): no library-built instance reaches
those states. -/
def valEntry (reg : Reg) (model : String) (fields : List (String × Val))
    (ctx : List FieldItem) (fi : FieldItem) : Bool × List VErr :=
  match fi with
  | .fname s =>
    if hasField fields s then
      match (reg model).lookup s with
      | some fc =>
        if validatorIsValid fc (getProp fields s) fields = false then
          (false, [⟨ctx, .inl s, some (getProp fields s), .NOT_VALID⟩])
        else (true, [])
      | none => (true, [])
    else (false, [⟨ctx, .inl s, none, .NOT_FOUND⟩])
  | .fpair s nested =>
    if hasField fields s then
      match ((reg model).lookup s).bind (fun fc => fc.type.association) with
      | some assoc =>
        if assoc == "BelongsTo" || assoc == "HasOne" then
          match nested with
          | some nl =>
            checkValidity (true, [])
              (match getProp fields s with
               | .ventity m2 f2 _ _ => valListAux reg m2 f2 nl nl
               | _ => (true, []))
          | none => (true, [])
        else if assoc == "HasMany" then
          -- checkValidity(this._validQuietly([fieldname])); the singleton
          -- call equals the single fname entry, see valListAux_singleton
          match nested with
          | some nl =>
            let acc1 := checkValidity (true, [])
              (valEntry reg model fields [.fname s] (.fname s))
            (match getProp fields s with
             | .vcoll _ items _ =>
               (items.map fun it =>
                 match it with
                 | .ventity m2 f2 _ _ => valListAux reg m2 f2 nl nl
                 | _ => (true, [])).foldl checkValidity acc1
             | _ => acc1)
          | none =>
            checkValidity (true, [])
              (valEntry reg model fields [.fname s] (.fname s))
        else (true, [])
      | none => (true, [])
    else (false, [⟨ctx, .inl s, none, .NOT_FOUND⟩])
  | .fother v => (false, [⟨ctx, .inr v, none, .SYNTAX_ERROR⟩])
termination_by sizeOf fi

end

/-- set validator[s].checked = true; a missing entry is left alone (the
source would throw there, see valEntry). -/
def setChecked (checked : List (String × Bool)) (s : String) : List (String × Bool) :=
  checked.map fun p => if p.1 == s then (p.1, true) else p

/-- in-place update of an owned field value. -/
def updateField (fields : List (String × Val)) (s : String) (v : Val) :
    List (String × Val) :=
  fields.map fun p => if p.1 == s then (p.1, v) else p

mutual

/-- The checked-marking effect of _validQuietly over a fieldlist, threading
the instance state entry by entry. -/
def markListM (reg : Reg) (model : String) (fields : List (String × Val))
    (checked : List (String × Bool)) (l : List FieldItem) :
    List (String × Val) × List (String × Bool) :=
  match l with
  | [] => (fields, checked)
  | e :: es =>
    let st := markEntry reg model fields checked e
    markListM reg model st.1 st.2 es
termination_by sizeOf l

/-- The marking effect of a single fieldlist entry: an owned listed field
is marked checked; a pair additionally recurses into the associated
instance(s) according to the association switch, updating their own
checked flags in place. -/
def markEntry (reg : Reg) (model : String) (fields : List (String × Val))
    (checked : List (String × Bool)) (fi : FieldItem) :
    List (String × Val) × List (String × Bool) :=
  match fi with
  | .fname s =>
    if hasField fields s then (fields, setChecked checked s) else (fields, checked)
  | .fpair s nested =>
    if hasField fields s then
      let c1 := setChecked checked s
      match ((reg model).lookup s).bind (fun fc => fc.type.association) with
      | some assoc =>
        if assoc == "BelongsTo" || assoc == "HasOne" then
          match nested with
          | some nl =>
            (match getProp fields s with
             | .ventity m2 f2 c2 n2 =>
               let r := markListM reg m2 f2 c2 nl
               (updateField fields s (.ventity m2 r.1 r.2 n2), c1)
             | _ => (fields, c1))
          | none => (fields, c1)
        else if assoc == "HasMany" then
          match nested with
          | some nl =>
            let st1 := markEntry reg model fields c1 (.fname s)
            (match getProp st1.1 s with
             | .vcoll m2 items cnt =>
               let items2 := items.map fun it =>
                 match it with
                 | .ventity m3 f3 c3 n3 =>
                   let r := markListM reg m3 f3 c3 nl
                   Val.ventity m3 r.1 r.2 n3
                 | _ => it
               (updateField st1.1 s (.vcoll m2 items2 cnt), st1.2)
             | _ => st1)
          | none => markEntry reg model fields c1 (.fname s)
        else (fields, c1)
      | none => (fields, c1)
    else (fields, checked)
  | .fother _ => (fields, checked)
termination_by sizeOf fi

end

/-- Model._validQuietly (src/lib/model.js lines 648-746): the returned
(isValid, errors) pair together with the mutated instance state. -/
def validQuietly (reg : Reg) (model : String) (fields : List (String × Val))
    (checked : List (String × Bool)) (l : List FieldItem) :
    (Bool × List VErr) × (List (String × Val) × List (String × Bool)) :=
  (valListAux reg model fields l l, markListM reg model fields checked l)

/-! ### src/lib/model.js collection methods (C8, C10) -/

/-- A Model instance in array mode, as the collection methods observe it:
the items list stored under the collection key and $modelize.count. -/
structure Collection where
  items : List Val
  count : Int

/-- Model.add (src/lib/model.js lines 575-585): push the instance (the
argument when it already is an instance, else one freshly constructed from
the payload) and increment the count. The construction itself is the Model
constructor, modeled elsewhere; add only appends whatever instance results. -/
def Model.add (c : Collection) (inst : Val) : Collection × Val :=
  ({ items := c.items ++ [inst], count := c.count + 1 }, inst)

/-- Model.remove (src/lib/model.js lines 556-569): findIndex with the check
predicate (the caller-supplied function, or the primary-key comparison
closure built from a ref object); on a hit, splice that single index out
and decrement the count; otherwise leave the collection alone. Returns the
found index, -1 when absent. -/
def Model.remove (c : Collection) (check : Val → Bool) : Int × Collection :=
  match c.items.findIdx? check with
  | some i => ((i : Int), { items := c.items.eraseIdx i, count := c.count - 1 })
  | none => (-1, c)

/-- Strict equality === restricted to primitives; on objects it compares
references, which a value model cannot observe, so distinct object values
compare unequal here (primary keys are strings or numbers in practice). -/
def jsStrictEq : Val → Val → Bool
  | .vundef, .vundef => true
  | .vnull, .vnull => true
  | .vbool a, .vbool b => a == b
  | .vnum a, .vnum b => a == b
  | .vstr a, .vstr b => a == b
  | _, _ => false

/-- The primary-key comparison closure that Model.remove and Model.exists
build when ref is not a function:
(item) => item[pkField] === ref[pkField]. -/
def pkCheck (pkName : String) (ref : Val) : Val → Bool :=
  fun item => jsStrictEq (getPropV item pkName) (getPropV ref pkName)

/-- Model.clear (src/lib/model.js lines 528-530): splice out the entire
items list; the count is untouched. Returns the removed items, as splice
does. -/
def Model.clear (c : Collection) : List Val × Collection :=
  (c.items, { c with items := [] })

/-- Model.isEmpty (src/lib/model.js lines 514-516). -/
def Model.isEmpty (c : Collection) : Bool := c.items.length == 0

/-- Model.hasMore (src/lib/model.js lines 521-523):
items().length < $modelize.count. -/
def Model.hasMore (c : Collection) : Bool := (c.items.length : Int) < c.count

/-! ### src/lib/model.js fetch: the lifecycle state machine (C9) -/

/-- The $modelize.states flags of an instance. -/
structure States where
  fetchInProgress : Bool := false
  fetchSuccessOnce : Bool := false
  fetchSuccess : Bool := false
  fetchFailure : Bool := false
  saveInProgress : Bool := false
  saveSuccess : Bool := false
  saveFailure : Bool := false
deriving DecidableEq, Repr

/-- How the awaited transport call ends: the fetch promise rejects (network
error), the 20-second deadline fires and aborts it (which also makes the
promise reject), the response arrives with ok = false, or it arrives ok. -/
inductive TransportOutcome where
  | rejected : TransportOutcome
  | deadlineAborted : TransportOutcome
  | notOk : TransportOutcome
  | ok : TransportOutcome
deriving DecidableEq, Repr

def TransportOutcome.isFailure : TransportOutcome → Bool
  | .ok => false
  | _ => true

/-- The exceptions Model.fetch can itself raise to the caller: the missing
endpoint guard, and the missing auth token thrown by _buildRequestInit
before the try block. -/
inductive FetchThrow where
  | noEndpoint : FetchThrow
  | authTokenMissing : FetchThrow
deriving DecidableEq, Repr

/-- Model.fetch (src/lib/model.js lines 397-484), as a transition on the
state flags. The data mutation performed on the success path
(_mutateData with the parsed response) does not touch the flags and is not
claimed here, so the model returns the flags together with whether a
ModelizeFetchError event was dispatched. Except.ok means the promise
resolves with the instance itself (the source returns
Promise.resolve(this) on both paths inside the try/catch); Except.error
means an exception propagates to the caller. -/
def fetchModel (hasEndpoint requireAuth authTokenOk isGet : Bool)
    (st : States) (outcome : TransportOutcome) :
    Except FetchThrow (States × Bool) :=
  if !hasEndpoint then .error .noEndpoint
  else
    let st1 :=
      if isGet then
        { st with fetchInProgress := true, fetchFailure := false, fetchSuccess := false }
      else
        { st with saveInProgress := true, saveFailure := false, saveSuccess := false }
    if requireAuth && !authTokenOk then .error .authTokenMissing
    else if outcome.isFailure then
      let st2 :=
        if isGet then { st1 with fetchInProgress := false, fetchFailure := true }
        else { st1 with saveInProgress := false, saveFailure := true }
      .ok (st2, true)
    else
      let st2 :=
        if isGet then
          { st1 with fetchInProgress := false, fetchSuccess := true, fetchSuccessOnce := true }
        else { st1 with saveInProgress := false, saveSuccess := true }
      .ok (st2, false)

/-! ### C2: primary-key cardinality at schema compilation -/

/-- The name of the last schema field whose raw definition is marked
primary key, mirroring how the Model.init loop overwrites
primaryKeyFieldname on every marked field. -/
def lastPk : List (String × RawFieldConf) → Option String
  | [] => none
  | p :: rest => (lastPk rest).orElse fun _ =>
      if rawIsPrimaryKey p.2 then some p.1 else none

/-- The init loop under the assumption that every field declares a type:
it never errors, and its primary-key accumulator ends at the last marked
field (or keeps its start value when none is marked). -/
theorem initLoop_ok (schema : List (String × RawFieldConf))
    (htypes : ∀ p ∈ schema, p.2.type.isSome = true)
    (acc : List (String × FieldConf)) (pk : Option String) :
    ∃ compiled,
      initLoop schema acc pk =
        Except.ok (compiled, (lastPk schema).orElse fun _ => pk) := by
  induction schema generalizing acc pk with
  | nil => exact ⟨acc, rfl⟩
  | cons p rest ih =>
    have hp := htypes p (List.mem_cons_self p rest)
    match ht : p.2.type with
    | none => rw [ht] at hp; simp at hp
    | some t =>
      have hcomp : ∃ fc, compileField p.1 p.2 = Except.ok fc := by
        unfold compileField; rw [ht]; exact ⟨_, rfl⟩
      obtain ⟨fc, hcomp⟩ := hcomp
      have hrest : ∀ q ∈ rest, q.2.type.isSome = true := fun q hq =>
        htypes q (List.mem_cons_of_mem p hq)
      obtain ⟨compiled, hloop⟩ := ih hrest (acc ++ [(p.1, fc)])
        (if rawIsPrimaryKey p.2 then some p.1 else pk)
      refine ⟨compiled, ?_⟩
      simp only [initLoop, hcomp]
      rw [hloop]
      cases hlast : lastPk rest with
      | some x => simp [lastPk, hlast, Option.orElse]
      | none =>
        cases hraw : rawIsPrimaryKey p.2 <;>
          simp [lastPk, hlast, hraw, Option.orElse]

/-- Option.orElse with a none fallback is the identity. -/
theorem orElse_none_right (o : Option String) : (o.orElse fun _ => none) = o := by
  cases o <;> rfl

/-- lastPk is none exactly when no field is marked primary key. -/
theorem lastPk_eq_none_iff (schema : List (String × RawFieldConf)) :
    lastPk schema = none ↔ ∀ p ∈ schema, rawIsPrimaryKey p.2 = false := by
  induction schema with
  | nil => simp [lastPk]
  | cons p rest ih =>
    simp only [lastPk, List.mem_cons]
    cases hlast : lastPk rest with
    | some x =>
      simp only [Option.orElse]
      constructor
      · intro h; cases h
      · intro h
        have hnone : lastPk rest = none :=
          ih.mpr fun q hq => h q (Or.inr hq)
        rw [hlast] at hnone; cases hnone
    | none =>
      cases hraw : rawIsPrimaryKey p.2 with
      | false =>
        constructor
        · intro _ q hq
          rcases hq with rfl | hq
          · exact hraw
          · exact ih.mp hlast q hq
        · intro _; rfl
      | true =>
        constructor
        · intro h; exact Option.noConfusion h
        · intro h
          have hp2 := h p (Or.inl rfl)
          rw [hraw] at hp2; cases hp2

/-- A schema in which two different fields are marked primary key. -/
def schemaTwoPk : List (String × RawFieldConf) :=
  [("id", { type := some DataTypes.STRING, primaryKey := some (Val.vbool true) }),
   ("code", { type := some DataTypes.STRING, primaryKey := some (Val.vbool true) })]

/-- C2 counterexample: compiling a schema with two primary-key fields does
not fail; Model.init succeeds and the later field silently wins as
primaryKeyFieldname. -/
theorem C2_counterexample_two_primary_keys :
    ∃ r, initSchema {} {} schemaTwoPk = Except.ok r ∧ r.2 = "code" := by
  exact ⟨_, rfl, rfl⟩

/-- C2 amended: provided every field declares a type (and the config checks
pass), compilation fails with a configuration error iff no field is marked
primary key; otherwise it succeeds and primaryKeyFieldname is the last
field marked primary key — multiple marked fields are not an error. -/
theorem C2_amended_primary_key (schema : List (String × RawFieldConf))
    (htypes : ∀ p ∈ schema, p.2.type.isSome = true) :
    (initSchema {} {} schema = Except.error ConfigError.missingPrimaryKey ↔
      lastPk schema = none) ∧
    (∀ pk, (∃ compiled, initSchema {} {} schema = Except.ok (compiled, pk)) ↔
      lastPk schema = some pk) ∧
    (lastPk schema = none ↔ ∀ p ∈ schema, rawIsPrimaryKey p.2 = false) := by
  obtain ⟨compiled, hloop⟩ := initLoop_ok schema htypes [] none
  rw [orElse_none_right] at hloop
  have hinit : initSchema {} {} schema =
      match lastPk schema with
      | none => Except.error ConfigError.missingPrimaryKey
      | some pk => Except.ok (compiled, pk) := by
    unfold initSchema
    simp only [hloop]
    cases lastPk schema <;> rfl
  refine ⟨?_, ?_, lastPk_eq_none_iff schema⟩
  · rw [hinit]; cases lastPk schema <;> simp
  · intro pk
    rw [hinit]
    cases hlast : lastPk schema with
    | none => simp
    | some x =>
      show (∃ c, Except.ok (compiled, x) = Except.ok (c, pk)) ↔ some x = some pk
      constructor
      · rintro ⟨c, hc⟩
        simp only [Except.ok.injEq, Prod.mk.injEq] at hc
        exact congrArg some hc.2
      · intro h
        obtain rfl : x = pk := by injection h
        exact ⟨compiled, rfl⟩

/-- A well-formed schema with one primary-key field and one plain field. -/
def schemaOnePk : List (String × RawFieldConf) :=
  [("id", { type := some DataTypes.UUID, primaryKey := some (Val.vbool true) }),
   ("name", { type := some DataTypes.STRING })]

/-- Witness for C2 amended at concrete schemas: the one-primary-key schema
compiles with primary key id, and stripping the marks makes compilation
fail with the missing-primary-key error. -/
theorem C2_amended_primary_key_witness :
    (∃ compiled, initSchema {} {} schemaOnePk = Except.ok (compiled, "id")) ∧
    initSchema {} {}
      [("name", ({ type := some DataTypes.STRING } : RawFieldConf))] =
      Except.error ConfigError.missingPrimaryKey := by
  have htypes : ∀ p ∈ schemaOnePk, p.2.type.isSome = true := by
    intro p hp
    simp only [schemaOnePk, List.mem_cons, List.mem_singleton] at hp
    rcases hp with rfl | rfl | h
    · rfl
    · rfl
    · cases h
  have h2 : ∀ p ∈ [("name", ({ type := some DataTypes.STRING } : RawFieldConf))],
      p.2.type.isSome = true := by
    intro p hp
    simp only [List.mem_singleton] at hp
    subst hp; rfl
  refine ⟨(C2_amended_primary_key schemaOnePk htypes).2.1 "id" |>.mpr rfl, ?_⟩
  exact (C2_amended_primary_key _ h2).1.mpr rfl

/-! ### C8: add and remove on collections -/

/-- C8: add appends exactly one item and raises the count by one; remove
with a matching check splices exactly the first matching index out and
lowers the count by one; remove with no match returns the -1 sentinel and
leaves the collection untouched. -/
theorem C8_add_remove (c : Collection) (inst : Val) (check : Val → Bool) :
    ((Model.add c inst).1.items = c.items ++ [inst] ∧
     (Model.add c inst).1.items.length = c.items.length + 1 ∧
     (Model.add c inst).1.count = c.count + 1) ∧
    ((∃ x ∈ c.items, check x = true) →
      ∃ i : Nat, c.items.findIdx? check = some i ∧
        Model.remove c check =
          ((i : Int), ⟨c.items.eraseIdx i, c.count - 1⟩) ∧
        (Model.remove c check).2.items.length + 1 = c.items.length ∧
        (Model.remove c check).2.count = c.count - 1) ∧
    ((∀ x ∈ c.items, check x = false) →
      Model.remove c check = (-1, c)) := by
  refine ⟨⟨by simp [Model.add], by simp [Model.add], rfl⟩, ?_, ?_⟩
  · rintro ⟨x, hx, hcheck⟩
    have hany : c.items.any check = true := List.any_eq_true.mpr ⟨x, hx, hcheck⟩
    have hsome : (c.items.findIdx? check).isSome = true := by
      rw [List.findIdx?_isSome, hany]
    obtain ⟨i, hi⟩ := Option.isSome_iff_exists.mp hsome
    have hlt : i < c.items.length :=
      (List.findIdx?_eq_some_iff_findIdx_eq.mp hi).1
    refine ⟨i, hi, ?_, ?_, ?_⟩
    · unfold Model.remove; rw [hi]
    · unfold Model.remove; rw [hi]
      exact List.length_eraseIdx_add_one hlt
    · unfold Model.remove; rw [hi]
  · intro hnone
    unfold Model.remove
    rw [List.findIdx?_eq_none_iff.mpr hnone]

/-- Witness for C8 at a concrete collection: adding a boolean to a
two-item collection, removing the matching blank string item, and
removing with a never-matching check. -/
theorem C8_add_remove_witness :
    (Model.add ⟨[Val.vstr "a", Val.vstr ""], 5⟩ (Val.vbool true)).1.count = 5 + 1 ∧
    (∃ i : Nat,
      [Val.vstr "a", Val.vstr ""].findIdx? seqEmptyString = some i ∧
      Model.remove ⟨[Val.vstr "a", Val.vstr ""], 5⟩ seqEmptyString =
        ((i : Int), ⟨[Val.vstr "a", Val.vstr ""].eraseIdx i, 5 - 1⟩) ∧
      (Model.remove ⟨[Val.vstr "a", Val.vstr ""], 5⟩ seqEmptyString).2.items.length + 1 = 2 ∧
      (Model.remove ⟨[Val.vstr "a", Val.vstr ""], 5⟩ seqEmptyString).2.count = 5 - 1) ∧
    Model.remove ⟨[Val.vstr "a", Val.vstr ""], 5⟩ (fun _ => false) =
      (-1, ⟨[Val.vstr "a", Val.vstr ""], 5⟩) := by
  refine ⟨(C8_add_remove ⟨[Val.vstr "a", Val.vstr ""], 5⟩ (Val.vbool true)
    seqEmptyString).1.2.2, ?_, ?_⟩
  · exact (C8_add_remove ⟨[Val.vstr "a", Val.vstr ""], 5⟩ (Val.vbool true)
      seqEmptyString).2.1 ⟨Val.vstr "", by simp, rfl⟩
  · exact (C8_add_remove ⟨[Val.vstr "a", Val.vstr ""], 5⟩ (Val.vbool true)
      (fun _ => false)).2.2 (fun x _ => rfl)

/-! ### C10: clear empties the items but not the count -/

/-- C10: on a collection with items loaded, clear removes every item while
$modelize.count is untouched; if the count was positive, the cleared
collection reports isEmpty and still reports hasMore. -/
theorem C10_clear_keeps_count (c : Collection) (hne : c.items ≠ [])
    (hcount : 0 < c.count) :
    (Model.clear c).2.items = [] ∧
    (Model.clear c).2.count = c.count ∧
    Model.isEmpty (Model.clear c).2 = true ∧
    Model.hasMore (Model.clear c).2 = true := by
  refine ⟨rfl, rfl, rfl, ?_⟩
  simp only [Model.hasMore, Model.clear, List.length_nil, Nat.cast_zero,
    decide_eq_true_eq]
  exact hcount

/-- Witness for C10 on a one-item collection with a server count of 3. -/
theorem C10_clear_keeps_count_witness :
    (Model.clear ⟨[Val.vnull], 3⟩).2.items = [] ∧
    (Model.clear ⟨[Val.vnull], 3⟩).2.count = 3 ∧
    Model.isEmpty (Model.clear ⟨[Val.vnull], 3⟩).2 = true ∧
    Model.hasMore (Model.clear ⟨[Val.vnull], 3⟩).2 = true :=
  C10_clear_keeps_count ⟨[Val.vnull], 3⟩ (by simp) (by decide)

/-! ### C9: transport failure leaves the failure flag, no exception -/

/-- C9: whenever the transport call ends in failure (rejected promise,
deadline abort or a non-ok status), and the preconditions that are checked
before the try block hold (an endpoint is configured, and the auth token is
available when required), Model.fetch resolves — it does not throw — with
the failure event dispatched, the operation class failure flag raised and
its in-progress flag cleared (the success flag also ends false). -/
theorem C9_transport_failure_resolves (requireAuth authTokenOk isGet : Bool)
    (st : States) (outcome : TransportOutcome)
    (hfail : outcome.isFailure = true)
    (hauth : (requireAuth && !authTokenOk) = false) :
    ∃ st2, fetchModel true requireAuth authTokenOk isGet st outcome =
        Except.ok (st2, true) ∧
      (isGet = true →
        st2.fetchFailure = true ∧ st2.fetchInProgress = false ∧
        st2.fetchSuccess = false) ∧
      (isGet = false →
        st2.saveFailure = true ∧ st2.saveInProgress = false ∧
        st2.saveSuccess = false) := by
  unfold fetchModel
  rw [hauth, hfail]
  cases isGet with
  | true =>
    refine ⟨_, rfl, fun _ => ⟨rfl, rfl, rfl⟩, fun h => ?_⟩
    cases h
  | false =>
    refine ⟨_, rfl, fun h => ?_, fun _ => ⟨rfl, rfl, rfl⟩⟩
    cases h

/-- Witness for C9: a GET whose transport rejects at the deadline, from the
fresh state, on a public endpoint. -/
theorem C9_transport_failure_resolves_witness :
    ∃ st2, fetchModel true false false true {} TransportOutcome.deadlineAborted =
        Except.ok (st2, true) ∧
      (true = true →
        st2.fetchFailure = true ∧ st2.fetchInProgress = false ∧
        st2.fetchSuccess = false) ∧
      (true = false →
        st2.saveFailure = true ∧ st2.saveInProgress = false ∧
        st2.saveSuccess = false) :=
  C9_transport_failure_resolves false false true {} TransportOutcome.deadlineAborted rfl rfl

/-! ### C5: raw construction and the primary-key resolution order -/

/-- The compiled field configuration that Model.init produces from a plain
raw definition { type: t [, primaryKey: true] } whose name is not a
timestamp field. -/
def confOf (t : TypeContract) (pk : Bool) : FieldConf :=
  { type := t
    defaultValue :=
      match t.defaultValue with
      | .func f => f
      | .val v => fun _ => v
    allowBlank := false
    isValid := fun _ _ => true
    primaryKey := pk
    bypassValidation := pk }

/-- Modeled from the claim wording, for comparison only: the primary key
resolved by taking the explicit primary-key field value in the partial
FIRST, else the partial primaryKey entry, else the default factory. The
source does it the other way around. -/
def buildRawItemSpecOrder (schema : List (String × FieldConf)) (pkName : String)
    (item : List (String × Val)) : List (String × Val) :=
  let primaryKey :=
    jsOr (getProp item pkName)
      (jsOr (getProp item "primaryKey")
        (match schema.lookup pkName with
         | some fc => fc.defaultValue .vundef
         | none => .vundef))
  schema.map fun p =>
    if p.1 == pkName then (p.1, primaryKey)
    else if item.any (fun q => q.1 == p.1) then (p.1, getProp item p.1)
    else (p.1, p.2.defaultValue primaryKey)

/-- The two-field schema used in the C5 counterexample. -/
def schemaC5 : List (String × FieldConf) :=
  [("id", confOf DataTypes.STRING true), ("name", confOf DataTypes.STRING false)]

/-- C5 counterexample: on a partial that carries both a primaryKey entry
and an explicit value for the primary-key field, _buildRawItem takes the
primaryKey entry (the source checks item.primaryKey first), while the
claim prescribes the explicit field value: the claimed order produces a
different item. -/
theorem C5_counterexample_pk_order :
    getProp (buildRawItem schemaC5 "id"
      [("primaryKey", Val.vstr "a"), ("id", Val.vstr "b")]) "id" = Val.vstr "a" ∧
    getProp (buildRawItemSpecOrder schemaC5 "id"
      [("primaryKey", Val.vstr "a"), ("id", Val.vstr "b")]) "id" = Val.vstr "b" ∧
    buildRawItem schemaC5 "id" [("primaryKey", Val.vstr "a"), ("id", Val.vstr "b")] ≠
      buildRawItemSpecOrder schemaC5 "id"
        [("primaryKey", Val.vstr "a"), ("id", Val.vstr "b")] := by
  refine ⟨rfl, rfl, ?_⟩
  intro h
  have h2 : Val.vstr "a" = Val.vstr "b" :=
    congrArg (fun l => getProp l "id") h
  simp at h2

/-- Distribute a shared first component over an if. -/
theorem ite_pair {α β : Type} (c : Prop) [Decidable c] (k : α) (x y : β) :
    (if c then (k, x) else (k, y)) = (k, if c then x else y) := by
  split <;> rfl

/-- getProp on the field list that _buildRawItem produces, for a field
whose first schema occurrence carries conf fc, with the resolved primary
key abstracted as z. -/
theorem getProp_buildRaw_aux (l : List (String × FieldConf)) (pkName : String)
    (item : List (String × Val)) (z : Val) (fn : String) (fc : FieldConf)
    (hlookup : l.lookup fn = some fc) :
    getProp
      (l.map fun p =>
        if p.1 == pkName then (p.1, z)
        else if item.any (fun q => q.1 == p.1) then (p.1, getProp item p.1)
        else (p.1, p.2.defaultValue z)) fn =
      (if fn == pkName then z
       else if item.any (fun q => q.1 == fn) then getProp item fn
       else fc.defaultValue z) := by
  induction l with
  | nil => cases hlookup
  | cons p rest ih =>
    obtain ⟨a, conf⟩ := p
    simp only [List.map_cons, ite_pair] at *
    cases hbeq : fn == a with
    | true =>
      have ha : fn = a := eq_of_beq hbeq
      subst ha
      have hfc : fc = conf := by
        have h2 := hlookup
        simp [List.lookup] at h2
        exact h2.symm
      subst hfc
      simp [getProp, List.lookup]
    | false =>
      have hlook2 : rest.lookup fn = some fc := by
        have h2 := hlookup
        simpa [List.lookup, hbeq] using h2
      have := ih hlook2
      simpa [getProp, List.lookup, hbeq] using this

/-- C5 amended: raw construction yields exactly the schema field names, in
order; the primary key is resolved by taking the partial primaryKey entry
first (when truthy), else the explicit primary-key field value (when
truthy), else the primary-key default factory invoked with no argument;
the primary-key field receives the resolved key, any other field present
in the partial keeps its value, and any other absent field is filled by
its default factory applied to the resolved key. -/
theorem C5_amended_buildRawItem (schema : List (String × FieldConf))
    (pkName : String) (item : List (String × Val)) :
    ((buildRawItem schema pkName item).map Prod.fst = schema.map Prod.fst) ∧
    (resolvePk schema pkName item =
      jsOr (getProp item "primaryKey")
        (jsOr (getProp item pkName)
          (match schema.lookup pkName with
           | some fc => fc.defaultValue Val.vundef
           | none => Val.vundef))) ∧
    (∀ fn fc, schema.lookup fn = some fc →
      getProp (buildRawItem schema pkName item) fn =
        (if fn == pkName then resolvePk schema pkName item
         else if item.any (fun q => q.1 == fn) then getProp item fn
         else fc.defaultValue (resolvePk schema pkName item))) := by
  refine ⟨?_, rfl, ?_⟩
  · unfold buildRawItem
    rw [List.map_map]
    apply List.map_congr_left
    intro p _
    simp [Function.comp, apply_ite Prod.fst]
  · intro fn fc hlookup
    exact getProp_buildRaw_aux schema pkName item
      (resolvePk schema pkName item) fn fc hlookup

/-- Witness for C5 amended: a partial supplying only the plain field keeps
that value; the primary-key branch of the characterization is exercised at
the same schema. -/
theorem C5_amended_buildRawItem_witness :
    (getProp (buildRawItem schemaC5 "id" [("name", Val.vstr "x")]) "name" =
      (if "name" == "id" then resolvePk schemaC5 "id" [("name", Val.vstr "x")]
       else if [("name", Val.vstr "x")].any (fun q => q.1 == "name") then
         getProp [("name", Val.vstr "x")] "name"
       else (confOf DataTypes.STRING false).defaultValue
         (resolvePk schemaC5 "id" [("name", Val.vstr "x")]))) ∧
    getProp (buildRawItem schemaC5 "id" [("name", Val.vstr "x")]) "name" =
      Val.vstr "x" :=
  ⟨(C5_amended_buildRawItem schemaC5 "id" [("name", Val.vstr "x")]).2.2 "name"
    (confOf DataTypes.STRING false) rfl, rfl⟩

/-! ### C3: the wire payload contains exactly the checked acceptable fields -/

/-- In an association list with no duplicate keys, a key determines its
value. -/
theorem assoc_nodup_functional {β : Type} (l : List (String × β))
    (hnd : (l.map Prod.fst).Nodup) {a : String} {b c : β}
    (hb : (a, b) ∈ l) (hc : (a, c) ∈ l) : b = c := by
  induction l with
  | nil => cases hb
  | cons p rest ih =>
    rcases List.mem_cons.mp hb with rfl | hb2
    · rcases List.mem_cons.mp hc with h | hc2
      · exact (congrArg Prod.snd h).symm
      · exact absurd (List.mem_map_of_mem Prod.fst hc2)
          (by simpa using (List.nodup_cons.mp hnd).1)
    · rcases List.mem_cons.mp hc with rfl | hc2
      · exact absurd (List.mem_map_of_mem Prod.fst hb2)
          (by simpa using (List.nodup_cons.mp hnd).1)
      · exact ih (List.nodup_cons.mp hnd).2 hb2 hc2

/-- Membership in the object produced by _beforeSaveItem: a binding is
emitted for fn exactly when some validator entry of fn is checked, the
schema accepts the current value, and the binding carries the serialized
value. Shared between the serialization and the validation-marking
results. -/
theorem beforeSaveItem_mem_iff (schema : List (String × FieldConf))
    (fields : List (String × Val)) (checked : List (String × Bool))
    (fn : String) (w : Val) :
    (fn, w) ∈ beforeSaveItem schema fields checked ↔
      ∃ ck fc, (fn, ck) ∈ checked ∧ schema.lookup fn = some fc ∧ ck = true ∧
        validatorIsValid fc (getProp fields fn) fields = true ∧
        w = fc.type.beforeSave (getProp fields fn) := by
  unfold beforeSaveItem
  rw [List.mem_filterMap]
  constructor
  · rintro ⟨⟨a, ck⟩, hpmem, hg⟩
    cases hlk : List.lookup a schema with
    | none =>
      rw [hlk] at hg
      exact Option.noConfusion hg
    | some fc =>
      rw [hlk] at hg
      have hg2 : (if (ck && validatorIsValid fc (getProp fields a) fields) = true
          then some (a, fc.type.beforeSave (getProp fields a)) else none) =
          some (fn, w) := hg
      by_cases hck : (ck && validatorIsValid fc (getProp fields a) fields) = true
      · rw [if_pos hck] at hg2
        injection hg2 with hg3
        injection hg3 with h1 h2
        subst h1
        have hck2 := hck
        rw [Bool.and_eq_true] at hck2
        exact ⟨ck, fc, hpmem, hlk, hck2.1, hck2.2, h2.symm⟩
      · rw [if_neg hck] at hg2
        exact Option.noConfusion hg2
  · rintro ⟨ck, fc, hpmem, hlk, rfl, hvalid, rfl⟩
    refine ⟨(fn, true), hpmem, ?_⟩
    show (match List.lookup fn schema with
      | some fc =>
        if (true && validatorIsValid fc (getProp fields fn) fields) = true
        then some (fn, fc.type.beforeSave (getProp fields fn)) else none
      | none => none) = some (fn, fc.type.beforeSave (getProp fields fn))
    rw [hlk]
    show (if (true && validatorIsValid fc (getProp fields fn) fields) = true
      then some (fn, fc.type.beforeSave (getProp fields fn)) else none) =
      some (fn, fc.type.beforeSave (getProp fields fn))
    rw [if_pos (by simp [hvalid])]

/-- C3: the serialized item contains a binding (fn, w) exactly when the
validator entry of fn is checked, the current value of fn is acceptable,
and w is that value pushed through the field type beforeSave; moreover,
with distinct validator keys, a field whose entry is unchecked or whose
value is unacceptable contributes nothing. Serialization never fails: it
is a total function. -/
theorem C3_beforeSave_exactly_checked_valid (schema : List (String × FieldConf))
    (fields : List (String × Val)) (checked : List (String × Bool)) :
    (∀ fn w, (fn, w) ∈ beforeSaveItem schema fields checked ↔
      ∃ ck fc, (fn, ck) ∈ checked ∧ schema.lookup fn = some fc ∧ ck = true ∧
        validatorIsValid fc (getProp fields fn) fields = true ∧
        w = fc.type.beforeSave (getProp fields fn)) ∧
    ((checked.map Prod.fst).Nodup → ∀ fn ck, (fn, ck) ∈ checked →
      (ck = false ∨
        ∀ fc, schema.lookup fn = some fc →
          validatorIsValid fc (getProp fields fn) fields = false) →
      ∀ w, (fn, w) ∉ beforeSaveItem schema fields checked) := by
  refine ⟨beforeSaveItem_mem_iff schema fields checked, ?_⟩
  intro hnd fn ck hckmem hbad w hw
  obtain ⟨ck2, fc, hmem2, hlk, hck2, hvalid, _⟩ :=
    (beforeSaveItem_mem_iff schema fields checked fn w).mp hw
  have : ck = ck2 := assoc_nodup_functional checked hnd hckmem hmem2
  subst this
  rcases hbad with rfl | hbad
  · cases hck2
  · rw [hbad fc hlk] at hvalid; cases hvalid

/-- The schema, instance fields and validator flags of the C3 witness:
id is checked with an acceptable value, name is checked but blank (not
acceptable, allowBlank false), mail is unchecked. -/
def schemaC3 : List (String × FieldConf) :=
  [("id", confOf DataTypes.STRING true), ("name", confOf DataTypes.STRING false),
   ("mail", confOf DataTypes.EMAIL false)]

def fieldsC3 : List (String × Val) :=
  [("id", Val.vstr "u1"), ("name", Val.vstr ""), ("mail", Val.vstr "bad")]

def checkedC3 : List (String × Bool) :=
  [("id", true), ("name", true), ("mail", false)]

/-- Witness for C3: the id field is included, the checked-but-failing name
and the unchecked mail are omitted, and the whole payload evaluates to the
single id binding — silent omission, no error. -/
theorem C3_beforeSave_exactly_checked_valid_witness :
    ("id", Val.vstr "u1") ∈ beforeSaveItem schemaC3 fieldsC3 checkedC3 ∧
    ("name", Val.vstr "") ∉ beforeSaveItem schemaC3 fieldsC3 checkedC3 ∧
    ("mail", Val.vstr "bad") ∉ beforeSaveItem schemaC3 fieldsC3 checkedC3 ∧
    beforeSaveItem schemaC3 fieldsC3 checkedC3 = [("id", Val.vstr "u1")] := by
  refine ⟨?_, ?_, ?_, rfl⟩
  · exact ((C3_beforeSave_exactly_checked_valid schemaC3 fieldsC3 checkedC3).1
      "id" (Val.vstr "u1")).mpr
      ⟨true, confOf DataTypes.STRING true, by simp [checkedC3], rfl, rfl, rfl, rfl⟩
  · exact (C3_beforeSave_exactly_checked_valid schemaC3 fieldsC3 checkedC3).2
      (by simp [checkedC3]) "name" true (by simp [checkedC3])
      (Or.inr fun fc hfc => by
        obtain rfl : fc = confOf DataTypes.STRING false := by
          simpa [schemaC3, List.lookup] using hfc.symm
        rfl)
      (Val.vstr "")
  · exact (C3_beforeSave_exactly_checked_valid schemaC3 fieldsC3 checkedC3).2
      (by simp [checkedC3]) "mail" false (by simp [checkedC3])
      (Or.inl rfl) (Val.vstr "bad")

/-! ### C4: what validation marks checked, and what stays out of the payload -/

/-- The field name an entry addresses: a string entry or the head of a
pair; a syntax-error entry addresses none. -/
def entryName : FieldItem → Option String
  | .fname s => some s
  | .fpair s _ => some s
  | .fother _ => none

/-- The field names listed at the top level of a fieldlist. -/
def listedNames (l : List FieldItem) : List String := l.filterMap entryName

/-- A key found by lookup is a member. -/
theorem lookup_mem {β : Type} (l : List (String × β)) (a : String) (b : β)
    (h : l.lookup a = some b) : (a, b) ∈ l := by
  induction l with
  | nil => cases h
  | cons p rest ih =>
    obtain ⟨k, v⟩ := p
    cases hk : a == k with
    | true =>
      have h2 : some v = some b := by simpa [List.lookup, hk] using h
      injection h2 with h2
      subst h2
      exact (eq_of_beq hk) ▸ List.mem_cons_self _ _
    | false =>
      exact List.mem_cons_of_mem _ (ih (by simpa [List.lookup, hk] using h))

/-- Lookup through a key-preserving map. -/
theorem lookup_map_pair {β γ : Type} (g : String × β → γ)
    (l : List (String × β)) (fn : String) (b : β) (h : l.lookup fn = some b) :
    (l.map fun p => (p.1, g p)).lookup fn = some (g (fn, b)) := by
  induction l with
  | nil => cases h
  | cons p rest ih =>
    obtain ⟨k, v⟩ := p
    cases hk : fn == k with
    | true =>
      have h2 : some v = some b := by simpa [List.lookup, hk] using h
      injection h2 with h2
      subst h2
      obtain rfl : fn = k := eq_of_beq hk
      simp [List.lookup, List.map_cons]
    | false =>
      have h2 := ih (by simpa [List.lookup, hk] using h)
      simpa [List.lookup, List.map_cons, hk] using h2

/-- setChecked only rewrites the flag of the named field to true. -/
theorem setChecked_lookup (checked : List (String × Bool)) (s f : String) :
    (setChecked checked s).lookup f =
      if f = s then (checked.lookup f).map (fun _ => true)
      else checked.lookup f := by
  induction checked with
  | nil => simp [setChecked]
  | cons p rest ih =>
    obtain ⟨k, b⟩ := p
    simp only [setChecked, List.map_cons]
    cases hks : k == s with
    | true =>
      obtain rfl : k = s := eq_of_beq hks
      rw [if_pos rfl]
      cases hfk : f == k with
      | true =>
        obtain rfl : f = k := eq_of_beq hfk
        simp [List.lookup]
      | false =>
        have hne : ¬f = k := by intro h; rw [h] at hfk; simp at hfk
        have ih2 := ih
        simp only [setChecked] at ih2
        simp only [List.lookup, hfk, hne, if_neg hne]
        simpa [hne] using ih2
    | false =>
      rw [if_neg (by simp [hks])]
      cases hfk : f == k with
      | true =>
        obtain rfl : f = k := eq_of_beq hfk
        have hfs : ¬f = s := by intro h; rw [h] at hks; simp at hks
        simp [List.lookup, hfs]
      | false =>
        have ih2 := ih
        simp only [setChecked] at ih2
        simp only [List.lookup, hfk]
        simpa [hfk] using ih2

/-- setChecked keeps the key sequence. -/
theorem setChecked_keys (checked : List (String × Bool)) (s : String) :
    (setChecked checked s).map Prod.fst = checked.map Prod.fst := by
  unfold setChecked
  rw [List.map_map]
  apply List.map_congr_left
  intro p _
  simp only [Function.comp_apply]
  split <;> rfl

/-- updateField keeps the key sequence. -/
theorem updateField_keys (fields : List (String × Val)) (s : String) (v : Val) :
    (updateField fields s v).map Prod.fst = fields.map Prod.fst := by
  unfold updateField
  rw [List.map_map]
  apply List.map_congr_left
  intro p _
  simp only [Function.comp_apply]
  split <;> rfl

/-- hasField only depends on the key sequence. -/
theorem hasField_eq_keys (fields : List (String × Val)) (f : String) :
    hasField fields f = (fields.map Prod.fst).any (fun k => k == f) := by
  induction fields with
  | nil => rfl
  | cons p rest ih =>
    simp only [hasField, List.any_cons, List.map_cons] at *
    rw [ih]

/-- A string entry never rewrites the instance fields. -/
theorem markEntry_fname_fst (reg : Reg) (model : String)
    (fields : List (String × Val)) (checked : List (String × Bool)) (s : String) :
    (markEntry reg model fields checked (.fname s)).1 = fields := by
  by_cases h : hasField fields s = true <;> simp [markEntry, h]

/-- A string entry marks the field checked exactly when the instance owns
it. -/
theorem markEntry_fname_snd (reg : Reg) (model : String)
    (fields : List (String × Val)) (checked : List (String × Bool)) (s : String) :
    (markEntry reg model fields checked (.fname s)).2 =
      if hasField fields s = true then setChecked checked s else checked := by
  by_cases h : hasField fields s = true <;> simp [markEntry, h]

/-- Marking never changes the key sequence of the instance fields. -/
theorem markEntry_fst_keys (reg : Reg) (model : String)
    (fields : List (String × Val)) (checked : List (String × Bool)) (fi : FieldItem) :
    ((markEntry reg model fields checked fi).1).map Prod.fst =
      fields.map Prod.fst := by
  cases fi with
  | fname s => rw [markEntry_fname_fst]
  | fother v => simp [markEntry]
  | fpair s nested =>
    simp only [markEntry]
    repeat' split
    all_goals simp [updateField_keys, markEntry_fname_fst]

/-- Marking never changes the key sequence of the validator flags. -/
theorem markEntry_snd_keys (reg : Reg) (model : String)
    (fields : List (String × Val)) (checked : List (String × Bool)) (fi : FieldItem) :
    ((markEntry reg model fields checked fi).2).map Prod.fst =
      checked.map Prod.fst := by
  cases fi with
  | fname s =>
    rw [markEntry_fname_snd]
    split <;> simp [setChecked_keys]
  | fother v => simp [markEntry]
  | fpair s nested =>
    simp only [markEntry]
    repeat' split
    all_goals
      simp [setChecked_keys, markEntry_fname_snd]

/-- Marking the same flag twice is the same as once, seen through lookup. -/
theorem setChecked_lookup_idem (checked : List (String × Bool)) (s f : String) :
    (setChecked (setChecked checked s) s).lookup f =
      (setChecked checked s).lookup f := by
  rw [setChecked_lookup, setChecked_lookup]
  split <;> simp_all [Option.map_map]

/-- The flag effect of a single entry on the top-level validator state: the
addressed field is set checked when the instance owns it, every other flag
is untouched. -/
theorem markEntry_flag (reg : Reg) (model : String)
    (fields : List (String × Val)) (checked : List (String × Bool))
    (fi : FieldItem) (f : String) :
    ((markEntry reg model fields checked fi).2).lookup f =
      if entryName fi = some f ∧ hasField fields f = true
      then (checked.lookup f).map (fun _ => true)
      else checked.lookup f := by
  cases fi with
  | fother v => simp [markEntry, entryName]
  | fname s =>
    rw [markEntry_fname_snd]
    by_cases hsf : s = f
    · subst hsf
      by_cases hh : hasField fields s = true
      · rw [if_pos hh, setChecked_lookup, if_pos rfl, if_pos ⟨rfl, hh⟩]
      · rw [if_neg hh, if_neg (by simp [entryName, hh])]
    · have hfs : ¬f = s := fun h => hsf h.symm
      by_cases hh : hasField fields s = true
      · rw [if_pos hh, setChecked_lookup, if_neg hfs,
          if_neg (by simp [entryName, hsf])]
      · rw [if_neg hh, if_neg (by simp [entryName, hsf])]
  | fpair s nested =>
    have hone : ((markEntry reg model fields checked (.fpair s nested)).2) =
        (if hasField fields s = true then setChecked checked s else checked) ∨
        ((markEntry reg model fields checked (.fpair s nested)).2) =
        (if hasField fields s = true then setChecked (setChecked checked s) s
         else checked) := by
      by_cases hh : hasField fields s = true
      · simp only [markEntry, hh, if_pos]
        repeat' split
        all_goals simp [markEntry_fname_snd, hh, setChecked_keys]
      · simp [markEntry, hh]
    have hsingle : ((markEntry reg model fields checked (.fpair s nested)).2).lookup f =
        (if hasField fields s = true then setChecked checked s
         else checked).lookup f := by
      rcases hone with h | h
      · rw [h]
      · rw [h]
        split <;> simp [setChecked_lookup_idem]
    rw [hsingle]
    by_cases hsf : s = f
    · subst hsf
      by_cases hh : hasField fields s = true
      · rw [if_pos hh, setChecked_lookup, if_pos rfl, if_pos ⟨rfl, hh⟩]
      · rw [if_neg hh, if_neg (by simp [entryName, hh])]
    · have hfs : ¬f = s := fun h => hsf h.symm
      by_cases hh : hasField fields s = true
      · rw [if_pos hh, setChecked_lookup, if_neg hfs,
          if_neg (by simp [entryName, hsf])]
      · rw [if_neg hh, if_neg (by simp [entryName, hsf])]

/-- Marking a whole fieldlist keeps the field keys. -/
theorem markListM_fst_keys (reg : Reg) (model : String) :
    ∀ (l : List FieldItem) (fields : List (String × Val))
      (checked : List (String × Bool)),
      ((markListM reg model fields checked l).1).map Prod.fst =
        fields.map Prod.fst := by
  intro l
  induction l with
  | nil => intro fields checked; simp [markListM]
  | cons e es ih =>
    intro fields checked
    have hstep : markListM reg model fields checked (e :: es) =
        markListM reg model (markEntry reg model fields checked e).1
          (markEntry reg model fields checked e).2 es := by
      simp [markListM]
    rw [hstep, ih, markEntry_fst_keys]

/-- Marking a whole fieldlist keeps the validator keys. -/
theorem markListM_snd_keys (reg : Reg) (model : String) :
    ∀ (l : List FieldItem) (fields : List (String × Val))
      (checked : List (String × Bool)),
      ((markListM reg model fields checked l).2).map Prod.fst =
        checked.map Prod.fst := by
  intro l
  induction l with
  | nil => intro fields checked; simp [markListM]
  | cons e es ih =>
    intro fields checked
    have hstep : markListM reg model fields checked (e :: es) =
        markListM reg model (markEntry reg model fields checked e).1
          (markEntry reg model fields checked e).2 es := by
      simp [markListM]
    rw [hstep, ih, markEntry_snd_keys]

/-- The top-level flag effect of marking a fieldlist: a flag is set exactly
for the owned fields whose names are listed; everything else keeps its
initial value. -/
theorem markListM_flag (reg : Reg) (model : String) :
    ∀ (l : List FieldItem) (fields : List (String × Val))
      (checked : List (String × Bool)) (f : String),
      ((markListM reg model fields checked l).2).lookup f =
        if f ∈ listedNames l ∧ hasField fields f = true
        then (checked.lookup f).map (fun _ => true)
        else checked.lookup f := by
  intro l
  induction l with
  | nil => intro fields checked f; simp [markListM, listedNames]
  | cons e es ih =>
    intro fields checked f
    have hstep : markListM reg model fields checked (e :: es) =
        markListM reg model (markEntry reg model fields checked e).1
          (markEntry reg model fields checked e).2 es := by
      simp [markListM]
    rw [hstep, ih]
    have hkeys : hasField (markEntry reg model fields checked e).1 f =
        hasField fields f := by
      rw [hasField_eq_keys, hasField_eq_keys, markEntry_fst_keys]
    rw [hkeys, markEntry_flag]
    have hmemiff : (f ∈ listedNames (e :: es)) ↔
        (entryName e = some f ∨ f ∈ listedNames es) := by
      simp [listedNames, List.mem_filterMap, List.mem_cons]
    by_cases h1 : entryName e = some f <;>
      by_cases h2 : f ∈ listedNames es <;>
      by_cases h3 : hasField fields f = true <;>
      simp [hmemiff, h1, h2, h3, Option.map_map]

/-- _buildValidator keeps the schema keys. -/
theorem buildValidator_keys (schema : List (String × FieldConf)) :
    (buildValidator schema).map Prod.fst = schema.map Prod.fst := by
  unfold buildValidator
  rw [List.map_map]
  apply List.map_congr_left
  intro p _
  rfl

/-- A validator entry starts at the bypassValidation flag of its field. -/
theorem buildValidator_lookup (schema : List (String × FieldConf))
    (fn : String) (fc : FieldConf) (h : schema.lookup fn = some fc) :
    (buildValidator schema).lookup fn = some fc.bypassValidation := by
  have h2 := lookup_map_pair (fun p => p.2.bypassValidation) schema fn fc h
  simpa [buildValidator] using h2

/-- C4 amended: validation sets checked exactly on the owned fields whose
names are listed at the top level; an unlisted field keeps its initial
flag, which _buildValidator set to the field bypassValidation (true for a
primary key and for createdAt/updatedAt); consequently, with distinct
schema keys, an unlisted field with bypassValidation false stays unchecked
on the validated instance and is excluded from the serialized payload —
while unlisted bypass fields stay checked. -/
theorem C4_amended_marking (reg : Reg) (model : String)
    (schema : List (String × FieldConf)) (fields : List (String × Val))
    (l : List FieldItem) :
    (∀ f, ((markListM reg model fields (buildValidator schema) l).2).lookup f =
      if f ∈ listedNames l ∧ hasField fields f = true
      then ((buildValidator schema).lookup f).map (fun _ => true)
      else (buildValidator schema).lookup f) ∧
    (∀ f fc, schema.lookup f = some fc →
      (buildValidator schema).lookup f = some fc.bypassValidation) ∧
    ((schema.map Prod.fst).Nodup →
      ∀ f fc, schema.lookup f = some fc → f ∉ listedNames l →
        fc.bypassValidation = false →
        ∀ w, (f, w) ∉ beforeSaveItem schema
          (markListM reg model fields (buildValidator schema) l).1
          (markListM reg model fields (buildValidator schema) l).2) := by
  refine ⟨fun f => markListM_flag reg model l fields (buildValidator schema) f,
    fun f fc h => buildValidator_lookup schema f fc h, ?_⟩
  intro hnd f fc hlk hnotl hbyp w hw
  obtain ⟨ck, fc2, hckmem, _, hcktrue, _, _⟩ :=
    (beforeSaveItem_mem_iff schema _ _ f w).mp hw
  have hflag : ((markListM reg model fields (buildValidator schema) l).2).lookup f =
      some false := by
    rw [markListM_flag reg model l fields (buildValidator schema) f,
      if_neg (fun h => hnotl h.1), buildValidator_lookup schema f fc hlk, hbyp]
  have hmemfalse : (f, false) ∈
      (markListM reg model fields (buildValidator schema) l).2 :=
    lookup_mem _ _ _ hflag
  have hndmarked :
      (((markListM reg model fields (buildValidator schema) l).2).map Prod.fst).Nodup := by
    rw [markListM_snd_keys, buildValidator_keys]
    exact hnd
  have : ck = false := assoc_nodup_functional _ hndmarked hckmem hmemfalse
  rw [this] at hcktrue
  cases hcktrue

/-- The registry and marked state of the C4 concrete scenario: the schema
has primary key id (bypassValidation true) and a plain field name; only
name is listed for validation. -/
def regC4 : Reg := fun _ => schemaC5

def fieldsC4 : List (String × Val) :=
  [("id", Val.vstr "u"), ("name", Val.vstr "n")]

def markedC4 : List (String × Val) × List (String × Bool) :=
  markListM regC4 "M" fieldsC4 (buildValidator schemaC5) [FieldItem.fname "name"]

/-- C4 counterexample: after validating only the name field, the never
listed primary-key field id still has checked = true (its initial flag is
bypassValidation, not false), and it appears in the serialized payload —
the claim that every never-listed field ends with checked = false and is
excluded is wrong for bypass fields. -/
theorem C4_counterexample_bypass_field :
    markedC4.2.lookup "id" = some true ∧
    ("id", Val.vstr "u") ∈ beforeSaveItem schemaC5 markedC4.1 markedC4.2 := by
  have hflag : markedC4.2.lookup "id" = some true := by
    show (markListM regC4 "M" fieldsC4 (buildValidator schemaC5)
      [FieldItem.fname "name"]).2.lookup "id" = some true
    rw [markListM_flag]
    rw [if_neg (by simp [listedNames, entryName])]
    rfl
  have hfields : markedC4.1 = fieldsC4 := by
    show (markListM regC4 "M" fieldsC4 (buildValidator schemaC5)
      [FieldItem.fname "name"]).1 = fieldsC4
    have hstep : markListM regC4 "M" fieldsC4 (buildValidator schemaC5)
        [FieldItem.fname "name"] =
        markListM regC4 "M"
          (markEntry regC4 "M" fieldsC4 (buildValidator schemaC5)
            (FieldItem.fname "name")).1
          (markEntry regC4 "M" fieldsC4 (buildValidator schemaC5)
            (FieldItem.fname "name")).2 [] := by
      simp [markListM]
    rw [hstep]
    simp [markListM, markEntry_fname_fst]
  refine ⟨hflag, ?_⟩
  refine (beforeSaveItem_mem_iff schemaC5 markedC4.1 markedC4.2 "id"
    (Val.vstr "u")).mpr ?_
  refine ⟨true, confOf DataTypes.STRING true, lookup_mem _ _ _ hflag, rfl, rfl,
    ?_, ?_⟩
  · rw [hfields]; rfl
  · rw [hfields]; rfl

/-- Witness for C4 amended at the concrete scenario: the flag equations
and payload exclusion computed on a schema extended with an unlisted
non-bypass field mail. -/
theorem C4_amended_marking_witness :
    ((markListM regC4 "M"
        [("id", Val.vstr "u"), ("name", Val.vstr "n"), ("mail", Val.vstr "m")]
        (buildValidator schemaC3) [FieldItem.fname "name"]).2).lookup "mail" =
      (if "mail" ∈ listedNames [FieldItem.fname "name"] ∧
          hasField [("id", Val.vstr "u"), ("name", Val.vstr "n"),
            ("mail", Val.vstr "m")] "mail" = true
       then ((buildValidator schemaC3).lookup "mail").map (fun _ => true)
       else (buildValidator schemaC3).lookup "mail") ∧
    (buildValidator schemaC3).lookup "mail" =
      some (confOf DataTypes.EMAIL false).bypassValidation ∧
    ("mail", Val.vstr "m") ∉ beforeSaveItem schemaC3
      (markListM regC4 "M"
        [("id", Val.vstr "u"), ("name", Val.vstr "n"), ("mail", Val.vstr "m")]
        (buildValidator schemaC3) [FieldItem.fname "name"]).1
      (markListM regC4 "M"
        [("id", Val.vstr "u"), ("name", Val.vstr "n"), ("mail", Val.vstr "m")]
        (buildValidator schemaC3) [FieldItem.fname "name"]).2 := by
  have h := C4_amended_marking regC4 "M" schemaC3
    [("id", Val.vstr "u"), ("name", Val.vstr "n"), ("mail", Val.vstr "m")]
    [FieldItem.fname "name"]
  refine ⟨h.1 "mail", h.2.1 "mail" (confOf DataTypes.EMAIL false) rfl, ?_⟩
  exact h.2.2 (by simp [schemaC3]) "mail" (confOf DataTypes.EMAIL false) rfl
    (by simp [listedNames, entryName]) rfl (Val.vstr "m")

/-! ### C7: per-entry behavior and full aggregation of _validQuietly -/

/-- The _validQuietly accumulator in closed form: isValid is the
conjunction over the entries, and the errors are the concatenation of the
errors of the failing entries, in order. -/
theorem valListAux_agg (reg : Reg) (model : String)
    (fields : List (String × Val)) (ctx : List FieldItem) :
    ∀ l : List FieldItem,
      valListAux reg model fields ctx l =
        (l.all (fun e => (valEntry reg model fields ctx e).1),
         l.flatMap (fun e =>
           if (valEntry reg model fields ctx e).1 then []
           else (valEntry reg model fields ctx e).2)) := by
  intro l
  induction l with
  | nil => simp [valListAux]
  | cons e es ih =>
    simp only [valListAux, ih, List.all_cons, List.flatMap_cons]

/-- The singleton call this._validQuietly([fieldname]) used in the HasMany
branch equals the single string entry with that singleton context. -/
theorem valListAux_singleton (reg : Reg) (model : String)
    (fields : List (String × Val)) (x : FieldItem) :
    valListAux reg model fields [x] [x] =
      checkValidity (true, []) (valEntry reg model fields [x] x) := by
  rw [valListAux_agg]
  unfold checkValidity
  cases hv : (valEntry reg model fields [x] x).1 <;>
    simp [hv, Prod.ext_iff]

/-- C7: each fieldlist entry behaves as specified — an owned string entry
is accepted or yields exactly one NOT_VALID error carrying the value, an
unowned name yields NOT_FOUND without raising, a non-string non-pair entry
yields SYNTAX_ERROR — processing covers every entry, the result collects
the errors of all failing entries, and isValid is false iff at least one
entry failed. -/
theorem C7_validQuietly_entries (reg : Reg) (model : String)
    (fields : List (String × Val)) (l : List FieldItem) :
    (valListAux reg model fields l l =
      (l.all (fun e => (valEntry reg model fields l e).1),
       l.flatMap (fun e =>
         if (valEntry reg model fields l e).1 then []
         else (valEntry reg model fields l e).2))) ∧
    (∀ (ctx : List FieldItem) (s : String) (fc : FieldConf),
      hasField fields s = true → (reg model).lookup s = some fc →
      valEntry reg model fields ctx (.fname s) =
        (validatorIsValid fc (getProp fields s) fields,
         if validatorIsValid fc (getProp fields s) fields then []
         else [⟨ctx, Sum.inl s, some (getProp fields s), VErrKind.NOT_VALID⟩])) ∧
    (∀ (ctx : List FieldItem) (s : String), hasField fields s = false →
      valEntry reg model fields ctx (.fname s) =
        (false, [⟨ctx, Sum.inl s, none, VErrKind.NOT_FOUND⟩])) ∧
    (∀ (ctx : List FieldItem) (v : Val),
      valEntry reg model fields ctx (.fother v) =
        (false, [⟨ctx, Sum.inr v, none, VErrKind.SYNTAX_ERROR⟩])) ∧
    ((valListAux reg model fields l l).1 = false ↔
      ∃ e ∈ l, (valEntry reg model fields l e).1 = false) ∧
    (∀ e ∈ l, (valEntry reg model fields l e).1 = false →
      ∀ err ∈ (valEntry reg model fields l e).2,
        err ∈ (valListAux reg model fields l l).2) := by
  refine ⟨valListAux_agg reg model fields l l, ?_, ?_, ?_, ?_, ?_⟩
  · intro ctx s fc hh hlk
    cases hv : validatorIsValid fc (getProp fields s) fields <;>
      simp [valEntry, hh, hlk, hv]
  · intro ctx s hh
    simp [valEntry, hh]
  · intro ctx v
    simp [valEntry]
  · rw [valListAux_agg]
    simp [List.all_eq_false]
  · intro e hel hfail err herr
    rw [valListAux_agg]
    exact List.mem_flatMap.mpr ⟨e, hel, by simp [hfail, herr]⟩

/-- The registry and fieldlist of the C7 witness: name is owned but blank
(fails), nope is not a field, and a number entry is a syntax error. -/
def regC7 : Reg := fun _ => schemaC3

def lC7 : List FieldItem :=
  [FieldItem.fname "name", FieldItem.fname "nope", FieldItem.fother (Val.vnum 3)]

/-- Witness for C7 at the concrete entity: the three entry kinds produce
their specified results and the whole validation reports isValid false. -/
theorem C7_validQuietly_entries_witness :
    (valEntry regC7 "M" fieldsC3 lC7 (FieldItem.fname "name") =
      (validatorIsValid (confOf DataTypes.STRING false) (getProp fieldsC3 "name") fieldsC3,
       if validatorIsValid (confOf DataTypes.STRING false) (getProp fieldsC3 "name") fieldsC3
       then []
       else [⟨lC7, Sum.inl "name", some (getProp fieldsC3 "name"), VErrKind.NOT_VALID⟩])) ∧
    (valEntry regC7 "M" fieldsC3 lC7 (FieldItem.fname "nope") =
      (false, [⟨lC7, Sum.inl "nope", none, VErrKind.NOT_FOUND⟩])) ∧
    (valEntry regC7 "M" fieldsC3 lC7 (FieldItem.fother (Val.vnum 3)) =
      (false, [⟨lC7, Sum.inr (Val.vnum 3), none, VErrKind.SYNTAX_ERROR⟩])) ∧
    (valListAux regC7 "M" fieldsC3 lC7 lC7).1 = false := by
  have h := C7_validQuietly_entries regC7 "M" fieldsC3 lC7
  refine ⟨h.2.1 lC7 "name" (confOf DataTypes.STRING false) rfl rfl,
    h.2.2.1 lC7 "nope" rfl, h.2.2.2.1 lC7 (Val.vnum 3), ?_⟩
  apply (h.2.2.2.2.1).mpr
  exact ⟨FieldItem.fname "nope", by simp [lC7],
    by rw [h.2.2.1 lC7 "nope" rfl]⟩

/-! ### C6: the serialization round trip (type.beforeBuild after type.beforeSave) -/

/-- The characters printed by Nat.repr are decimal digits. -/
lemma digitChar_isDigitChar (m : Nat) (h : m < 10) :
    isDigitChar (Nat.digitChar m) = true := by
  interval_cases m <;> decide

/-- Reading back the digit character of a value below ten. -/
lemma digitVal_digitChar (m : Nat) (h : m < 10) :
    digitVal (Nat.digitChar m) = m := by
  interval_cases m <;> decide

lemma digitVal_lt_ten (c : Char) (h : isDigitChar c = true) : digitVal c < 10 := by
  have h2 : 48 ≤ c.toNat ∧ c.toNat ≤ 57 := by simpa [isDigitChar] using h
  unfold digitVal
  omega

/-- Nat.toDigitsCore only ever prepends to its accumulator. -/
lemma toDigitsCore_shift (f : Nat) : ∀ (n : Nat) (ds : List Char),
    Nat.toDigitsCore 10 f n ds = Nat.toDigitsCore 10 f n [] ++ ds := by
  induction f with
  | zero => intro n ds; rfl
  | succ f ih =>
    intro n ds
    simp only [Nat.toDigitsCore]
    by_cases h : n / 10 = 0
    · simp [h]
    · rw [if_neg h, if_neg h, ih (n / 10) (Nat.digitChar (n % 10) :: ds),
        ih (n / 10) [Nat.digitChar (n % 10)]]
      simp

lemma parseDigits_snoc (cs : List Char) (c : Char) :
    parseDigits (cs ++ [c]) = parseDigits cs * 10 + digitVal c := by
  simp [parseDigits]

/-- With enough fuel, Nat.toDigitsCore prints a nonempty all-digit string that
parseDigits reads back to the input. -/
lemma toDigitsCore_spec (f : Nat) : ∀ n : Nat, n < 10 ^ f →
    ((Nat.toDigitsCore 10 f n []).all isDigitChar = true ∧
      parseDigits (Nat.toDigitsCore 10 f n []) = n ∧
      (0 < f → Nat.toDigitsCore 10 f n [] ≠ [])) := by
  induction f with
  | zero =>
    intro n hn
    have hz : n = 0 := Nat.lt_one_iff.mp (by simpa using hn)
    exact ⟨rfl, by subst hz; rfl, fun h => absurd h (by decide)⟩
  | succ f ih =>
    intro n hn
    simp only [Nat.toDigitsCore]
    have hmod : n % 10 < 10 := Nat.mod_lt n (by norm_num)
    by_cases h : n / 10 = 0
    · rw [if_pos h]
      refine ⟨by simp [digitChar_isDigitChar _ hmod], ?_, fun _ => by simp⟩
      simp [parseDigits, digitVal_digitChar _ hmod]
      omega
    · rw [if_neg h, toDigitsCore_shift f (n / 10) [Nat.digitChar (n % 10)]]
      have hdiv : n / 10 < 10 ^ f := Nat.nat_repr_len_aux n 10 f (by norm_num) hn
      obtain ⟨hall, hparse, _⟩ := ih (n / 10) hdiv
      refine ⟨?_, ?_, fun _ => by simp⟩
      · simp [List.all_append, hall, digitChar_isDigitChar _ hmod]
      · rw [parseDigits_snoc, hparse, digitVal_digitChar _ hmod]
        omega

lemma repr_data (n : Nat) :
    (Nat.repr n).data = Nat.toDigitsCore 10 (n + 1) n [] := rfl

/-- Nat.repr prints a nonempty all-digit string read back by parseDigits. -/
lemma repr_spec (n : Nat) :
    (Nat.repr n).data.all isDigitChar = true ∧
      parseDigits (Nat.repr n).data = n ∧ (Nat.repr n).data ≠ [] := by
  have hlt : n < 10 ^ (n + 1) :=
    lt_of_lt_of_le (Nat.lt_pow_self (by norm_num) n)
      (Nat.pow_le_pow_right (by norm_num) (Nat.le_succ n))
  have h := toDigitsCore_spec (n + 1) n hlt
  rw [repr_data]
  exact ⟨h.1, h.2.1, h.2.2 (Nat.succ_pos n)⟩

lemma foldl_parse_lt (cs : List Char) : ∀ acc : Nat, cs.all isDigitChar = true →
    cs.foldl (fun a c => a * 10 + digitVal c) acc < (acc + 1) * 10 ^ cs.length := by
  induction cs with
  | nil => intro acc _; simpa using Nat.lt_succ_self acc
  | cons c cs ih =>
    intro acc hall
    rw [List.all_cons, Bool.and_eq_true] at hall
    have hd : digitVal c < 10 := digitVal_lt_ten c hall.1
    have h1 := ih (acc * 10 + digitVal c) hall.2
    simp only [List.foldl_cons, List.length_cons]
    refine lt_of_lt_of_le h1 ?_
    have h2 : acc * 10 + digitVal c + 1 ≤ (acc + 1) * 10 := by omega
    calc (acc * 10 + digitVal c + 1) * 10 ^ cs.length
        ≤ ((acc + 1) * 10) * 10 ^ cs.length := Nat.mul_le_mul_right _ h2
      _ = (acc + 1) * 10 ^ (cs.length + 1) := by ring

lemma parseDigits_lt (cs : List Char) (h : cs.all isDigitChar = true) :
    parseDigits cs < 10 ^ cs.length := by
  simpa [parseDigits] using foldl_parse_lt cs 0 h

lemma repr_len_le (n e : Nat) (he : 0 < e) (h : n < 10 ^ e) :
    (Nat.repr n).data.length ≤ e := Nat.repr_length n e he h

lemma repr_len_lower (n e : Nat) (h : 10 ^ e ≤ n) :
    e < (Nat.repr n).data.length := by
  obtain ⟨hall, hparse, -⟩ := repr_spec n
  have hlow := parseDigits_lt (Nat.repr n).data hall
  rw [hparse] at hlow
  by_contra hc
  push_neg at hc
  have hle : (10:ℕ) ^ (Nat.repr n).data.length ≤ 10 ^ e :=
    Nat.pow_le_pow_right (by norm_num) hc
  omega

lemma list_len_four {α : Type} {cs : List α} (h : cs.length = 4) :
    ∃ a b c d, cs = [a, b, c, d] := by
  cases cs with
  | nil => simp at h
  | cons a t =>
    rw [List.length_cons] at h
    obtain ⟨b, c, d, ht⟩ := List.length_eq_three.mp (show t.length = 3 by omega)
    exact ⟨a, b, c, d, by rw [ht]⟩

lemma parseDigits_cons_zero (cs : List Char) :
    parseDigits ('0' :: cs) = parseDigits cs := by
  have h0 : 0 * 10 + digitVal '0' = 0 := by decide
  simp only [parseDigits, List.foldl_cons, h0]

lemma parse_replicate_zero (k : Nat) (cs : List Char) :
    parseDigits (List.replicate k '0' ++ cs) = parseDigits cs := by
  induction k with
  | zero => rfl
  | succ k ih =>
    simp only [List.replicate_succ, List.cons_append]
    rw [parseDigits_cons_zero, ih]

lemma all_replicate_zero (k : Nat) : (List.replicate k '0').all isDigitChar = true := by
  induction k with
  | zero => rfl
  | succ k ih =>
    rw [List.replicate_succ, List.all_cons, ih]
    decide

/-- Zero-padding to width w prints exactly w digit characters that parse back. -/
lemma padNum_digits (w m : Nat) (hw : 0 < w) (h : m < 10 ^ w) :
    (padNum w m).data.length = w ∧ (padNum w m).data.all isDigitChar = true ∧
      parseDigits (padNum w m).data = m := by
  obtain ⟨hall, hparse, hne⟩ := repr_spec m
  have hle : (Nat.repr m).data.length ≤ w := repr_len_le m w hw h
  refine ⟨?_, ?_, ?_⟩
  · show (List.replicate (w - (Nat.repr m).length) '0' ++ (Nat.repr m).data).length = w
    rw [List.length_append, List.length_replicate]
    have hsl : (Nat.repr m).length = (Nat.repr m).data.length := rfl
    omega
  · show (List.replicate (w - (Nat.repr m).length) '0' ++ (Nat.repr m).data).all isDigitChar = true
    rw [List.all_append, all_replicate_zero, hall]
    rfl
  · show parseDigits (List.replicate (w - (Nat.repr m).length) '0' ++ (Nat.repr m).data) = m
    rw [parse_replicate_zero]
    exact hparse

/-- A two-character decomposition of padNum 2. -/
lemma padNum2_decomp (m : Nat) (h : m < 100) :
    ∃ a b, (padNum 2 m).data = [a, b] ∧ isDigitChar a = true ∧ isDigitChar b = true ∧
      parseDigits [a, b] = m := by
  obtain ⟨hlen, hall, hparse⟩ := padNum_digits 2 m (by norm_num) (show m < 10 ^ 2 from h)
  obtain ⟨a, b, hab⟩ := List.length_eq_two.mp hlen
  rw [hab] at hall hparse
  simp only [List.all_cons, List.all_nil, Bool.and_true, Bool.and_eq_true] at hall
  exact ⟨a, b, hab, hall.1, hall.2, hparse⟩

/-- A three-character decomposition of padNum 3. -/
lemma padNum3_decomp (m : Nat) (h : m < 1000) :
    ∃ a b c, (padNum 3 m).data = [a, b, c] ∧ isDigitChar a = true ∧ isDigitChar b = true ∧
      isDigitChar c = true ∧ parseDigits [a, b, c] = m := by
  obtain ⟨hlen, hall, hparse⟩ := padNum_digits 3 m (by norm_num) (show m < 10 ^ 3 from h)
  obtain ⟨a, b, c, habc⟩ := List.length_eq_three.mp hlen
  rw [habc] at hall hparse
  simp only [List.all_cons, List.all_nil, Bool.and_true, Bool.and_eq_true] at hall
  exact ⟨a, b, c, habc, hall.1, hall.2.1, hall.2.2, hparse⟩

/-- A four-character decomposition of padNum 4. -/
lemma padNum4_decomp (m : Nat) (h : m < 10000) :
    ∃ a b c d, (padNum 4 m).data = [a, b, c, d] ∧ isDigitChar a = true ∧
      isDigitChar b = true ∧ isDigitChar c = true ∧ isDigitChar d = true ∧
      parseDigits [a, b, c, d] = m := by
  obtain ⟨hlen, hall, hparse⟩ := padNum_digits 4 m (by norm_num) (show m < 10 ^ 4 from h)
  obtain ⟨a, b, c, d, habcd⟩ := list_len_four hlen
  rw [habcd] at hall hparse
  simp only [List.all_cons, List.all_nil, Bool.and_true, Bool.and_eq_true] at hall
  exact ⟨a, b, c, d, habcd, hall.1, hall.2.1, hall.2.2.1, hall.2.2.2, hparse⟩

/-- A four-digit year prints as exactly four digit characters. -/
lemma repr4_decomp (y : Nat) (h1 : 1000 ≤ y) (h2 : y ≤ 9999) :
    ∃ a b c d, (Nat.repr y).data = [a, b, c, d] ∧ isDigitChar a = true ∧
      isDigitChar b = true ∧ isDigitChar c = true ∧ isDigitChar d = true ∧
      parseDigits [a, b, c, d] = y := by
  obtain ⟨hall, hparse, -⟩ := repr_spec y
  have hub : (Nat.repr y).data.length ≤ 4 :=
    repr_len_le y 4 (by norm_num) (show y < 10 ^ 4 by omega)
  have hlb : 3 < (Nat.repr y).data.length :=
    repr_len_lower y 3 (show 10 ^ 3 ≤ y from h1)
  obtain ⟨a, b, c, d, habcd⟩ :=
    list_len_four (show (Nat.repr y).data.length = 4 by omega)
  rw [habcd] at hall hparse
  simp only [List.all_cons, List.all_nil, Bool.and_true, Bool.and_eq_true] at hall
  exact ⟨a, b, c, d, habcd, hall.1, hall.2.1, hall.2.2.1, hall.2.2.2, hparse⟩

/-- addZero prints one- and two-digit numbers as exactly two digit characters. -/
lemma addZero_decomp (m : Nat) (h : m ≤ 99) :
    ∃ a b, (addZero m).data = [a, b] ∧ isDigitChar a = true ∧ isDigitChar b = true ∧
      parseDigits [a, b] = m := by
  obtain ⟨hall, hparse, hne⟩ := repr_spec m
  by_cases hm : m < 10
  · have hle : (Nat.repr m).data.length ≤ 1 :=
      repr_len_le m 1 (by norm_num) (show m < 10 ^ 1 by omega)
    have hpos : 0 < (Nat.repr m).data.length := List.length_pos.mpr hne
    obtain ⟨c, hc⟩ := List.length_eq_one.mp (show (Nat.repr m).data.length = 1 by omega)
    rw [hc] at hall hparse
    simp only [List.all_cons, List.all_nil, Bool.and_true] at hall
    have hv : digitVal c = m := by simpa [parseDigits] using hparse
    refine ⟨'0', c, ?_, by decide, hall, ?_⟩
    · show (if m < 10 then "0" ++ Nat.repr m else Nat.repr m).data = ['0', c]
      rw [if_pos hm]
      show ("0" : String).data ++ (Nat.repr m).data = ['0', c]
      rw [hc]
      rfl
    · have h0 : digitVal '0' = 0 := by decide
      simp only [parseDigits, List.foldl_cons, List.foldl_nil, h0, hv]
      omega
  · have h10 : 10 ≤ m := Nat.not_lt.mp hm
    have hle : (Nat.repr m).data.length ≤ 2 :=
      repr_len_le m 2 (by norm_num) (show m < 10 ^ 2 by omega)
    have hlb : 1 < (Nat.repr m).data.length :=
      repr_len_lower m 1 (show 10 ^ 1 ≤ m by omega)
    obtain ⟨a, b, hab⟩ :=
      List.length_eq_two.mp (show (Nat.repr m).data.length = 2 by omega)
    rw [hab] at hall hparse
    simp only [List.all_cons, List.all_nil, Bool.and_true, Bool.and_eq_true] at hall
    refine ⟨a, b, ?_, hall.1, hall.2, hparse⟩
    show (if m < 10 then "0" ++ Nat.repr m else Nat.repr m).data = [a, b]
    rw [if_neg hm]
    exact hab

lemma daysInMonth_le (y m : Nat) : daysInMonth y m ≤ 31 := by
  unfold daysInMonth
  split
  · split <;> omega
  · split <;> omega

lemma validYMD_bounds (y mo d : Nat) (h : validYMD y mo d = true) :
    1 ≤ mo ∧ mo ≤ 12 ∧ 1 ≤ d ∧ d ≤ 31 := by
  have hle := daysInMonth_le y mo
  simp only [validYMD, Bool.and_eq_true, decide_eq_true_eq] at h
  omega

lemma validTime_bounds (h mi s ms : Nat) (ht : validTime h mi s ms = true) :
    h < 24 ∧ mi < 60 ∧ s < 60 ∧ ms < 1000 := by
  simp only [validTime, Bool.and_eq_true, decide_eq_true_eq] at ht
  omega

/-- The yyyy-mm-dd string printed for a valid calendar day with a four-digit
year parses back to the same day at UTC midnight. -/
lemma formatDateOnly_parse (d : JSDate) (hy1 : 1000 ≤ d.year) (hy2 : d.year ≤ 9999)
    (hv : validYMD d.year d.month d.day = true) :
    parseIsoChars (formatDateOnly d).data =
      some ⟨d.year, d.month, d.day, 0, 0, 0, 0⟩ := by
  obtain ⟨hmo1, hmo2, hd1, hd2⟩ := validYMD_bounds _ _ _ hv
  obtain ⟨a1, a2, a3, a4, hya, h1, h2, h3, h4, hyp⟩ := repr4_decomp d.year hy1 hy2
  obtain ⟨b1, b2, hb, hb1, hb2, hbp⟩ := addZero_decomp d.month (by omega)
  obtain ⟨c1, c2, hc, hc1, hc2, hcp⟩ := addZero_decomp d.day (by omega)
  have hdata : (formatDateOnly d).data = [a1, a2, a3, a4, '-', b1, b2, '-', c1, c2] := by
    show (Nat.repr d.year ++ "-" ++ addZero d.month ++ "-" ++ addZero d.day).data = _
    simp only [String.data_append]
    rw [hya, hb, hc]
    rfl
  rw [hdata]
  simp [parseIsoChars, h1, h2, h3, h4, hb1, hb2, hc1, hc2, hyp, hbp, hcp, hv]

/-- The full ISO string printed for a valid instant parses back to the very
same instant. -/
lemma toISOString_parse (d : JSDate) (hy : d.year ≤ 9999)
    (hv : validYMD d.year d.month d.day = true)
    (ht : validTime d.hour d.minute d.second d.millis = true) :
    parseIsoChars (toISOString d).data = some d := by
  obtain ⟨hmo1, hmo2, hd1, hd2⟩ := validYMD_bounds _ _ _ hv
  obtain ⟨hh, hmi, hs, hms⟩ := validTime_bounds _ _ _ _ ht
  obtain ⟨a1, a2, a3, a4, hya, h1, h2, h3, h4, hyp⟩ := padNum4_decomp d.year (by omega)
  obtain ⟨b1, b2, hb, hbd1, hbd2, hbp⟩ := padNum2_decomp d.month (by omega)
  obtain ⟨c1, c2, hc, hcd1, hcd2, hcp⟩ := padNum2_decomp d.day (by omega)
  obtain ⟨e1, e2, he, hed1, hed2, hep⟩ := padNum2_decomp d.hour (by omega)
  obtain ⟨g1, g2, hg, hgd1, hgd2, hgp⟩ := padNum2_decomp d.minute (by omega)
  obtain ⟨k1, k2, hk, hkd1, hkd2, hkp⟩ := padNum2_decomp d.second (by omega)
  obtain ⟨f1, f2, f3, hf, hfd1, hfd2, hfd3, hfp⟩ := padNum3_decomp d.millis (by omega)
  have hdata : (toISOString d).data =
      [a1, a2, a3, a4, '-', b1, b2, '-', c1, c2, 'T', e1, e2, ':', g1, g2, ':',
        k1, k2, '.', f1, f2, f3, 'Z'] := by
    show (padNum 4 d.year ++ "-" ++ padNum 2 d.month ++ "-" ++ padNum 2 d.day ++ "T" ++
        padNum 2 d.hour ++ ":" ++ padNum 2 d.minute ++ ":" ++ padNum 2 d.second ++ "." ++
        padNum 3 d.millis ++ "Z").data = _
    simp only [String.data_append]
    rw [hya, hb, hc, he, hg, hk, hf]
    rfl
  rw [hdata]
  simp [parseIsoChars, h1, h2, h3, h4, hbd1, hbd2, hcd1, hcd2, hed1, hed2,
    hgd1, hgd2, hkd1, hkd2, hfd1, hfd2, hfd3, hyp, hbp, hcp, hep, hgp, hkp, hfp, hv, ht]

lemma filter_ne_dash_of_subset {l seg : List Char}
    (hall : l.all (fun c => c != '-') = true) (hsub : seg ⊆ l) :
    seg.filter (fun c => c != '-') = seg := by
  apply List.filter_eq_self.mpr
  intro a ha
  exact List.all_eq_true.mp hall a (hsub ha)

/-- Dropping the dashes that the 8-4-4-4-12 rewrite inserted restores a
dash-free matched run. -/
lemma removeDashes_insert_block (l : List Char)
    (hall : l.all (fun c => c != '-') = true) :
    removeDashes (l.take 8 ++ '-' :: (l.drop 8).take 4 ++ '-' :: (l.drop 12).take 4 ++
      '-' :: (l.drop 16).take 4 ++ '-' :: (l.drop 20).take 12 ++ l.drop 32) = l := by
  have h1 : List.filter (fun c => c != '-') (l.take 8) = l.take 8 :=
    filter_ne_dash_of_subset hall (List.take_subset _ _)
  have h2 : List.filter (fun c => c != '-') ((l.drop 8).take 4) = (l.drop 8).take 4 :=
    filter_ne_dash_of_subset hall
      (List.Subset.trans (List.take_subset _ _) (List.drop_subset _ _))
  have h3 : List.filter (fun c => c != '-') ((l.drop 12).take 4) = (l.drop 12).take 4 :=
    filter_ne_dash_of_subset hall
      (List.Subset.trans (List.take_subset _ _) (List.drop_subset _ _))
  have h4 : List.filter (fun c => c != '-') ((l.drop 16).take 4) = (l.drop 16).take 4 :=
    filter_ne_dash_of_subset hall
      (List.Subset.trans (List.take_subset _ _) (List.drop_subset _ _))
  have h5 : List.filter (fun c => c != '-') ((l.drop 20).take 12) = (l.drop 20).take 12 :=
    filter_ne_dash_of_subset hall
      (List.Subset.trans (List.take_subset _ _) (List.drop_subset _ _))
  have h6 : List.filter (fun c => c != '-') (l.drop 32) = l.drop 32 :=
    filter_ne_dash_of_subset hall (List.drop_subset _ _)
  unfold removeDashes
  simp only [List.filter_append]
  rw [@List.filter_cons_of_neg Char (fun c => c != '-') '-' ((l.drop 8).take 4) (by decide),
    @List.filter_cons_of_neg Char (fun c => c != '-') '-' ((l.drop 12).take 4) (by decide),
    @List.filter_cons_of_neg Char (fun c => c != '-') '-' ((l.drop 16).take 4) (by decide),
    @List.filter_cons_of_neg Char (fun c => c != '-') '-' ((l.drop 20).take 12) (by decide),
    h1, h2, h3, h4, h5, h6]
  simp only [List.append_assoc]
  have e32 : l.drop 32 = (l.drop 20).drop 12 := (List.drop_drop 12 20 l).symm
  rw [e32, List.take_append_drop]
  have e20 : l.drop 20 = (l.drop 16).drop 4 := (List.drop_drop 4 16 l).symm
  rw [e20, List.take_append_drop]
  have e16 : l.drop 16 = (l.drop 12).drop 4 := (List.drop_drop 4 12 l).symm
  rw [e16, List.take_append_drop]
  have e12 : l.drop 12 = (l.drop 8).drop 4 := (List.drop_drop 4 8 l).symm
  rw [e12, List.take_append_drop, List.take_append_drop]

/-- On a dash-free string, removing every dash undoes the canonical dash
insertion, whether or not a 32-hex run was found. -/
lemma removeDashes_uuidInsertDashes : ∀ cs : List Char,
    cs.all (fun c => c != '-') = true → removeDashes (uuidInsertDashes cs) = cs := by
  intro cs
  induction cs with
  | nil => intro _; rfl
  | cons c cs ih =>
    intro hall
    rw [List.all_cons, Bool.and_eq_true] at hall
    simp only [uuidInsertDashes]
    by_cases hm :
        (decide (32 ≤ (c :: cs).length) && ((c :: cs).take 32).all isHexLower) = true
    · rw [if_pos hm]
      apply removeDashes_insert_block
      rw [List.all_cons, Bool.and_eq_true]
      exact hall
    · rw [if_neg hm]
      show List.filter (fun c => c != '-') (c :: uuidInsertDashes cs) = c :: cs
      have ih2 : List.filter (fun c => c != '-') (uuidInsertDashes cs) = cs := ih hall.2
      rw [@List.filter_cons_of_pos Char (fun c => c != '-') c (uuidInsertDashes cs) hall.1,
        ih2]

/-- C6: counterexample. PHONE is a static type whose valid domain is every
string, but serialization is not injective there: the valid value "a" is
stripped to "" by formatPhone on the way to the wire, and deserialization
(the identity) cannot restore it, so the round-trip law fails. -/
theorem C6_counterexample_phone_roundtrip :
    DataTypes.PHONE.isValid (Val.vstr "a") = true ∧
    DataTypes.PHONE.beforeBuild (DataTypes.PHONE.beforeSave (Val.vstr "a")) = Val.vstr "" ∧
    Val.vstr "" ≠ Val.vstr "a" := by
  refine ⟨rfl, ?_, ?_⟩
  · show Val.vstr (formatPhone "a") = Val.vstr ""
    rw [show formatPhone "a" = "" from by decide]
  · intro h
    exact absurd (Val.vstr.inj h) (by decide)

/-- C6: the round-trip law, amended. With identity serialization it holds
outright for STRING, EMAIL, URL, FILE, IP, BOOLEAN, ADDRESS, OBJECT and
ARRAY; INTEGER and FLOAT round-trip every valid value; PHONE round-trips
exactly the strings already in wire form (fixed points of formatPhone); UUID
round-trips the dash-free strings; DATETIME restores a valid instant with a
four-digit year exactly; DATE restores the same calendar day at UTC
midnight. -/
theorem C6_amended_roundtrip :
    (∀ v, DataTypes.STRING.isValid v = true →
      DataTypes.STRING.beforeBuild (DataTypes.STRING.beforeSave v) = v) ∧
    (∀ v, DataTypes.EMAIL.isValid v = true →
      DataTypes.EMAIL.beforeBuild (DataTypes.EMAIL.beforeSave v) = v) ∧
    (∀ v, DataTypes.URL.isValid v = true →
      DataTypes.URL.beforeBuild (DataTypes.URL.beforeSave v) = v) ∧
    (∀ v, DataTypes.FILE.isValid v = true →
      DataTypes.FILE.beforeBuild (DataTypes.FILE.beforeSave v) = v) ∧
    (∀ v, DataTypes.IP.isValid v = true →
      DataTypes.IP.beforeBuild (DataTypes.IP.beforeSave v) = v) ∧
    (∀ v, DataTypes.BOOLEAN.isValid v = true →
      DataTypes.BOOLEAN.beforeBuild (DataTypes.BOOLEAN.beforeSave v) = v) ∧
    (∀ v, DataTypes.ADDRESS.isValid v = true →
      DataTypes.ADDRESS.beforeBuild (DataTypes.ADDRESS.beforeSave v) = v) ∧
    (∀ v, DataTypes.OBJECT.isValid v = true →
      DataTypes.OBJECT.beforeBuild (DataTypes.OBJECT.beforeSave v) = v) ∧
    (∀ v, DataTypes.ARRAY.isValid v = true →
      DataTypes.ARRAY.beforeBuild (DataTypes.ARRAY.beforeSave v) = v) ∧
    (∀ v, DataTypes.INTEGER.isValid v = true →
      DataTypes.INTEGER.beforeBuild (DataTypes.INTEGER.beforeSave v) = v) ∧
    (∀ v, DataTypes.FLOAT.isValid v = true →
      DataTypes.FLOAT.beforeBuild (DataTypes.FLOAT.beforeSave v) = v) ∧
    (∀ s, formatPhone s = s →
      DataTypes.PHONE.beforeBuild (DataTypes.PHONE.beforeSave (Val.vstr s)) = Val.vstr s) ∧
    (∀ s : String, s.data.all (fun c => c != '-') = true →
      DataTypes.UUID.beforeBuild (DataTypes.UUID.beforeSave (Val.vstr s)) = Val.vstr s) ∧
    (∀ d : JSDate, d.year ≤ 9999 → validYMD d.year d.month d.day = true →
      validTime d.hour d.minute d.second d.millis = true →
      DataTypes.DATETIME.beforeBuild (DataTypes.DATETIME.beforeSave (Val.vdate d)) =
        Val.vdate d) ∧
    (∀ d : JSDate, 1000 ≤ d.year → d.year ≤ 9999 → validYMD d.year d.month d.day = true →
      DataTypes.DATE.beforeBuild (DataTypes.DATE.beforeSave (Val.vdate d)) =
        Val.vdate ⟨d.year, d.month, d.day, 0, 0, 0, 0⟩) := by
  refine ⟨fun v _ => rfl, fun v _ => rfl, fun v _ => rfl, fun v _ => rfl, fun v _ => rfl,
    fun v _ => rfl, fun v _ => rfl, fun v _ => rfl, fun v _ => rfl, ?_, ?_, ?_, ?_, ?_, ?_⟩
  · intro v hv
    cases v
    case vnum q =>
      have hv2 : (q.den == 1 && decide (0 ≤ q)) = true := hv
      rw [Bool.and_eq_true, beq_iff_eq] at hv2
      have hden : q.den = 1 := hv2.1
      have htr : jsTrunc q = q.num := by simp [jsTrunc, hden]
      show Val.vnum ((jsTrunc q : Int) : ℚ) = Val.vnum q
      rw [htr, Rat.coe_int_num_of_den_eq_one hden]
    all_goals simp [DataTypes.INTEGER] at hv
  · intro v hv
    cases v
    case vnum q => rfl
    all_goals simp [DataTypes.FLOAT] at hv
  · intro s hs
    show Val.vstr (formatPhone s) = Val.vstr s
    rw [hs]
  · intro s hs
    show Val.vstr ⟨removeDashes (uuidInsertDashes s.data)⟩ = Val.vstr s
    rw [removeDashes_uuidInsertDashes s.data hs]
  · intro d hy hv ht
    have hp := toISOString_parse d hy hv ht
    have hne2 : toISOString d ≠ "" := by
      intro hcon
      rw [hcon] at hp
      have hnone : (none : Option JSDate) = some d := hp
      exact Option.noConfusion hnone
    have hne : (toISOString d == "") = false := beq_eq_false_iff_ne.mpr hne2
    simp only [DataTypes.DATETIME]
    rw [if_neg (by simp [hne])]
    simp only [parseDate]
    rw [hp]
  · intro d hy1 hy2 hv
    have hp := formatDateOnly_parse d hy1 hy2 hv
    have hne2 : formatDateOnly d ≠ "" := by
      intro hcon
      rw [hcon] at hp
      have hnone : (none : Option JSDate) = some ⟨d.year, d.month, d.day, 0, 0, 0, 0⟩ := hp
      exact Option.noConfusion hnone
    have hne : (formatDateOnly d == "") = false := beq_eq_false_iff_ne.mpr hne2
    simp only [DataTypes.DATE]
    rw [if_neg (by simp [hne])]
    simp only [parseDate]
    rw [hp]

/-- C6 witness: every amended clause exercised at a concrete input. -/
theorem C6_amended_roundtrip_witness :
    DataTypes.STRING.beforeBuild (DataTypes.STRING.beforeSave (Val.vstr "x")) =
      Val.vstr "x" ∧
    DataTypes.EMAIL.beforeBuild (DataTypes.EMAIL.beforeSave (Val.vstr "a@b.cd")) =
      Val.vstr "a@b.cd" ∧
    DataTypes.URL.beforeBuild (DataTypes.URL.beforeSave (Val.vstr "http://x")) =
      Val.vstr "http://x" ∧
    DataTypes.FILE.beforeBuild (DataTypes.FILE.beforeSave (Val.vstr "http://x")) =
      Val.vstr "http://x" ∧
    DataTypes.IP.beforeBuild (DataTypes.IP.beforeSave (Val.vstr "1.2.3.4")) =
      Val.vstr "1.2.3.4" ∧
    DataTypes.BOOLEAN.beforeBuild (DataTypes.BOOLEAN.beforeSave (Val.vbool true)) =
      Val.vbool true ∧
    DataTypes.ADDRESS.beforeBuild (DataTypes.ADDRESS.beforeSave (Val.vobj
      [("street", Val.vstr "s"), ("postcode", Val.vstr "p"), ("city", Val.vstr "c")])) =
      Val.vobj [("street", Val.vstr "s"), ("postcode", Val.vstr "p"),
        ("city", Val.vstr "c")] ∧
    DataTypes.OBJECT.beforeBuild (DataTypes.OBJECT.beforeSave (Val.vobj [])) =
      Val.vobj [] ∧
    DataTypes.ARRAY.beforeBuild (DataTypes.ARRAY.beforeSave (Val.varr [])) =
      Val.varr [] ∧
    DataTypes.INTEGER.beforeBuild (DataTypes.INTEGER.beforeSave (Val.vnum 42)) =
      Val.vnum 42 ∧
    DataTypes.FLOAT.beforeBuild (DataTypes.FLOAT.beforeSave (Val.vnum ((42 : ℚ)))) =
      Val.vnum ((42 : ℚ)) ∧
    DataTypes.PHONE.beforeBuild (DataTypes.PHONE.beforeSave (Val.vstr "+33123456789")) =
      Val.vstr "+33123456789" ∧
    DataTypes.UUID.beforeBuild (DataTypes.UUID.beforeSave
      (Val.vstr "123e4567e89b12d3a456426614174000")) =
      Val.vstr "123e4567e89b12d3a456426614174000" ∧
    DataTypes.DATETIME.beforeBuild (DataTypes.DATETIME.beforeSave
      (Val.vdate ⟨2024, 3, 5, 13, 30, 59, 123⟩)) =
      Val.vdate ⟨2024, 3, 5, 13, 30, 59, 123⟩ ∧
    DataTypes.DATE.beforeBuild (DataTypes.DATE.beforeSave
      (Val.vdate ⟨2024, 3, 5, 13, 30, 59, 123⟩)) = Val.vdate ⟨2024, 3, 5, 0, 0, 0, 0⟩ := by
  obtain ⟨hS, hE, hU, hF, hI, hB, hA, hO, hR, hN, hL, hP, hQ, hT, hD⟩ := C6_amended_roundtrip
  exact ⟨hS _ (by decide), hE _ (by decide), hU _ (by decide), hF _ (by decide),
    hI _ (by decide), hB _ (by decide), hA _ (by decide), hO _ (by decide),
    hR _ (by decide), hN _ (by decide), hL _ (by decide), hP _ (by decide),
    hQ _ (by decide), hT _ (by decide) (by decide) (by decide),
    hD _ (by decide) (by decide) (by decide)⟩
